import Mathlib

/-!
Verification development for the VC-Copilot bounded website crawler
(`backend/scraping.py`).  The Python source is shallowly embedded below:
pure helper functions become Lean functions over `String`/`List`;
BeautifulSoup documents are abstracted to records carrying the texts and
attributes the scraper actually reads; HTTP traffic is abstracted to
oracles `String → Option Nat` (a `none` models a raised request exception,
`some s` a response with status code `s`).  Python `dict`s are modelled as
association lists preserving insertion order, and Python `set`s of tuples
as lists extended only with unseen members, which preserves cardinality.
-/

/-! ## Basic string utilities (Python string-method models) -/

/-- Characters treated as whitespace by Python's `str.strip()` (ASCII part,
which is all the scraper ever meets). -/
def isPySpace (c : Char) : Bool :=
  c == ' ' || c == '\t' || c == '\n' || c == '\r' || c == '\x0b' || c == '\x0c'

/-- Python `s.strip()`. -/
def pyStrip (s : String) : String :=
  ⟨((s.data.dropWhile isPySpace).reverse.dropWhile isPySpace).reverse⟩

/-- Python `s.rstrip('/')`: drop every trailing `'/'`. -/
def rstripSlash (s : String) : String :=
  ⟨(s.data.reverse.dropWhile (· == '/')).reverse⟩

/-- Python `s.split('#')[0]`: the part of `s` before the first `c`. -/
def beforeFirst (c : Char) (s : String) : String :=
  ⟨s.data.takeWhile (· != c)⟩

/-- `p` is a literal prefix of `s` (Python `s.startswith(p)`). -/
def startsWithStr (p s : String) : Bool :=
  p.data.isPrefixOf s.data

/-- `s` contains the character `c`. -/
def containsChar (c : Char) (s : String) : Bool :=
  s.data.contains c

/-- Last character of `s`, if any. -/
def lastChar (s : String) : Option Char :=
  s.data.getLast?

/-- `s` ends with the character `c`. -/
def endsWithChar (c : Char) (s : String) : Bool :=
  match lastChar s with
  | some d => d == c
  | none => false

/-- Python `s.endswith(p)`. -/
def endsWithStr (p s : String) : Bool :=
  p.data.reverse.isPrefixOf s.data.reverse

/-- `s` ends with a whitespace character. -/
def endsWithPySpace (s : String) : Bool :=
  match lastChar s with
  | some d => isPySpace d
  | none => false

/-- Infix test on character lists: `needle` occurs contiguously in `hay`
(Python `needle in hay` for strings). -/
def listHasInfix (needle : List Char) : List Char → Bool
  | [] => needle.isEmpty
  | c :: rest => needle.isPrefixOf (c :: rest) || listHasInfix needle rest

/-- Python `needle in hay` on strings. -/
def strContains (needle hay : String) : Bool :=
  listHasInfix needle.data hay.data

/-- Python `str.lower()` (ASCII case mapping, which covers every string the
scraper compares). -/
def strToLower (s : String) : String :=
  ⟨s.data.map Char.toLower⟩

/-- Python `str.upper()` (ASCII case mapping). -/
def strToUpper (s : String) : String :=
  ⟨s.data.map Char.toUpper⟩

/-- Python `s[:n]` (slicing counts code points, as `List.take` does). -/
def strTake (s : String) (n : Nat) : String :=
  ⟨s.data.take n⟩

/-- Python `s.split(sep)` for a one-character separator: empty parts are
kept, and splitting the empty string yields `[""]`. -/
def splitChar (c : Char) : List Char → List (List Char)
  | [] => [[]]
  | d :: rest =>
    match splitChar c rest with
    | part :: parts =>
      if d == c then [] :: part :: parts else (d :: part) :: parts
    | [] => [[]]

def splitOnChar (c : Char) (s : String) : List String :=
  (splitChar c s.data).map (fun l => ⟨l⟩)

/-- `sep.join(parts)`. -/
def strIntercalate (sep : String) : List String → String
  | [] => ""
  | x :: xs => xs.foldl (fun acc y => acc ++ sep ++ y) x

/-- Python string `<` (lexicographic by code point). -/
def strLtChars : List Char → List Char → Bool
  | [], [] => false
  | [], _ :: _ => true
  | _ :: _, [] => false
  | a :: as', b :: bs' => a < b || (a == b && strLtChars as' bs')

def strLtB (a b : String) : Bool :=
  strLtChars a.data b.data

/-- Python `str.capitalize()`: first character upper-cased, the rest
lower-cased. -/
def pyCapitalize (s : String) : String :=
  match s.data with
  | [] => ""
  | c :: rest => ⟨c.toUpper :: rest.map Char.toLower⟩

/-- Python `s.split()` (no argument): split on whitespace runs, no empty
parts. -/
def splitPred (p : Char → Bool) : List Char → List (List Char)
  | [] => [[]]
  | d :: rest =>
    match splitPred p rest with
    | part :: parts =>
      if p d then [] :: part :: parts else (d :: part) :: parts
    | [] => [[]]

def pyWords (s : String) : List String :=
  ((splitPred isPySpace s.data).map (fun l => (⟨l⟩ : String))).filter (· ≠ "")

/-- `len(text.split())`, the scraper's word count. -/
def wordCount (s : String) : Nat :=
  (pyWords s).length

/-! ## `urllib.parse` model

Model of CPython's `urlsplit`/`urlparse` restricted to what the scraper
uses (`scheme`, `netloc`, `path`, and query/fragment separation; the
rarely-used `params` component of `urlparse` is kept inside `path`, and no
URL handled by the crawler contains `';'`). -/

structure UrlParts where
  scheme : String
  netloc : String
  path : String
  query : String
  fragment : String
deriving Repr, DecidableEq

def isSchemeChar (c : Char) : Bool :=
  c.isAlpha || c.isDigit || c == '+' || c == '-' || c == '.'

/-- Split a leading `scheme:` as CPython `urlsplit` does: the text before
the first `':'` is a scheme iff it is nonempty, starts with a letter and
consists of scheme characters; the scheme is lower-cased. -/
def splitScheme (l : List Char) : String × List Char :=
  match go [] l with
  | some (before, after) =>
    match before with
    | [] => ("", l)
    | c :: _ =>
      if c.isAlpha && before.all isSchemeChar then
        (⟨before.map Char.toLower⟩, after)
      else ("", l)
  | none => ("", l)
where
  go (acc : List Char) : List Char → Option (List Char × List Char)
    | [] => none
    | c :: cs => if c == ':' then some (acc.reverse, cs) else go (c :: acc) cs

def isNetlocEnd (c : Char) : Bool :=
  c == '/' || c == '?' || c == '#'

/-- Split the first occurrence of `c`: `(before, after)`;
`after = []` also when `c` is absent (the callers cannot tell the
difference, exactly as in CPython where both yield the empty component). -/
def splitAtFirst (c : Char) : List Char → List Char × List Char
  | [] => ([], [])
  | d :: rest =>
    if d == c then ([], rest)
    else
      let (b, a) := splitAtFirst c rest
      (d :: b, a)

/-- The `//netloc` split: when the remainder after the scheme starts with
`//`, the netloc runs until the next `'/'`, `'?'` or `'#'`. -/
def netlocSplit : List Char → List Char × List Char
  | '/' :: '/' :: r => (r.takeWhile (fun c => !isNetlocEnd c), r.dropWhile (fun c => !isNetlocEnd c))
  | r => ([], r)

/-- Model of `urllib.parse.urlparse` (components used by the scraper). -/
def urlparse (s : String) : UrlParts :=
  let sr := splitScheme s.data
  let nr := netlocSplit sr.2
  let ff := splitAtFirst '#' nr.2
  let pq := splitAtFirst '?' ff.1
  { scheme := sr.1, netloc := ⟨nr.1⟩, path := ⟨pq.1⟩,
    query := ⟨pq.2⟩, fragment := ⟨ff.2⟩ }

def usesRelative (scheme : String) : Bool :=
  scheme ∈ ["", "ftp", "http", "gopher", "nntp", "imap", "wais", "file",
            "https", "shttp", "mms", "prospero", "rtsp", "rtspu", "sftp",
            "svn", "svn+ssh", "ws", "wss"]

def usesNetlocList : List String :=
  ["", "ftp", "http", "gopher", "nntp", "telnet", "imap", "wais", "file",
   "mms", "https", "shttp", "snews", "prospero", "rtsp", "rtspu", "rsync",
   "svn", "svn+ssh", "sftp", "nfs", "git", "git+ssh", "ws", "wss",
   "itms-services"]

def usesNetloc (scheme : String) : Bool :=
  scheme ∈ usesNetlocList

/-- Model of `urllib.parse.urlunsplit`. -/
def urlunsplit (scheme netloc path query fragment : String) : String :=
  let url :=
    if netloc ≠ "" || startsWithStr "//" path then
      let p := if path ≠ "" && !startsWithStr "/" path then "/" ++ path else path
      "//" ++ netloc ++ p
    else path
  let url := if scheme ≠ "" then scheme ++ ":" ++ url else url
  let url := if query ≠ "" then url ++ "?" ++ query else url
  if fragment ≠ "" then url ++ "#" ++ fragment else url

/-- Keep the first and last entries, drop empty strings in between
(CPython's `segments[1:-1] = filter(None, segments[1:-1])`). -/
def filterMiddle : List String → List String
  | [] => []
  | [a] => [a]
  | a :: rest => a :: goRest rest
where
  goRest : List String → List String
    | [] => []
    | [b] => [b]
    | b :: bs => if b = "" then goRest bs else b :: goRest bs

/-- Dot-segment resolution loop of CPython `urljoin`. -/
def resolveSegments (segments : List String) : List String :=
  let resolved := segments.foldl
    (fun acc seg =>
      if seg = ".." then acc.dropLast
      else if seg = "." then acc
      else acc ++ [seg]) []
  if segments.getLast? = some "." || segments.getLast? = some ".." then
    resolved ++ [""]
  else resolved

/-- Model of `urllib.parse.urljoin` (with `params` folded into the path). -/
def urljoin (base url : String) : String :=
  if base = "" then url
  else if url = "" then base
  else
    let b := urlparse base
    let u := urlparse url
    let scheme := if u.scheme = "" then b.scheme else u.scheme
    if scheme ≠ b.scheme || !usesRelative scheme then url
    else if usesNetloc scheme && u.netloc ≠ "" then
      urlunsplit scheme u.netloc u.path u.query u.fragment
    else
      let netloc := if usesNetloc scheme then b.netloc else u.netloc
      if u.path = "" then
        let query := if u.query = "" then b.query else u.query
        urlunsplit scheme netloc b.path query u.fragment
      else
        let baseParts := splitOnChar '/' b.path
        let baseParts := if baseParts.getLast? = some "" then baseParts else baseParts.dropLast
        let segments :=
          if startsWithStr "/" u.path then splitOnChar '/' u.path
          else filterMiddle (baseParts ++ splitOnChar '/' u.path)
        let path := strIntercalate "/" (resolveSegments segments)
        let path := if path = "" then "/" else path
        urlunsplit scheme netloc path u.query u.fragment

/-! ## `normalize_url`, equivalence, dedup, skip (scraping.py 449-531) -/

/-- `normalize_url(url, base_url)` from `scraping.py`: strip the fragment
and surrounding whitespace, resolve against the base unless the URL is
already absolute `http(s)`, then drop trailing slashes from the whole
string whenever the parsed path ends in `'/'` and is not the bare root. -/
def normalize_url (url base_url : String) : String :=
  if url = "" then ""
  else
    let u := pyStrip (beforeFirst '#' url)
    let normalized :=
      if startsWithStr "/" u then urljoin base_url u
      else if !(startsWithStr "http://" u || startsWithStr "https://" u) then urljoin base_url u
      else u
    let parsed := urlparse normalized
    if parsed.path ≠ "" && parsed.path ≠ "/" && endsWithChar '/' parsed.path then
      rstripSlash normalized
    else normalized

/-- `urls_are_equivalent(url1, url2)`: same netloc and same
trailing-slash-stripped path. -/
def urls_are_equivalent (url1 url2 : String) : Bool :=
  let p1 := urlparse (rstripSlash url1)
  let p2 := urlparse (rstripSlash url2)
  p1.netloc == p2.netloc && rstripSlash p1.path == rstripSlash p2.path

/-- `is_same_domain(url1, url2)`. -/
def is_same_domain (url1 url2 : String) : Bool :=
  (urlparse url1).netloc == (urlparse url2).netloc

def skipExtensions : List String :=
  [".pdf", ".doc", ".docx", ".xls", ".xlsx", ".zip",
   ".png", ".jpg", ".jpeg", ".gif", ".svg", ".ico",
   ".css", ".js", ".xml", ".json", ".rss", ".txt"]

def skipPaths : List String :=
  ["/login", "/signin", "/signup", "/register", "/cart",
   "/checkout", "/privacy", "/terms", "/cookie", "/legal",
   "/wp-admin", "/admin", "/dashboard", "/account", "/user",
   "/auth", "/oauth", "/api", "/download"]

def skipDomains : List String :=
  ["facebook.com", "twitter.com", "linkedin.com",
   "instagram.com", "youtube.com", "google.com",
   "github.com", "medium.com", "reddit.com"]

/-- `should_skip_url(url)`: substring tests against the three skip lists. -/
def should_skip_url (url : String) : Bool :=
  let urlLower := strToLower url
  skipExtensions.any (fun e => strContains e urlLower)
  || skipPaths.any (fun p => strContains p urlLower)
  || skipDomains.any (fun d => strContains d urlLower)

/-- The canonical key the deduplicator tracks per URL:
`f"{parsed.netloc}{parsed.path.rstrip('/')}"` of `urlparse(url.rstrip('/'))`. -/
def canonKey (url : String) : String :=
  let p := urlparse (rstripSlash url)
  p.netloc ++ rstripSlash p.path

/-- The rewritten URL the deduplicator emits for a kept candidate:
`f"{scheme}://{netloc}{path.rstrip('/')}"` plus the root-domain edge case. -/
def cleanUrl (url : String) : String :=
  let p := urlparse (rstripSlash url)
  let c := p.scheme ++ "://" ++ p.netloc ++ rstripSlash p.path
  if endsWithStr "://" c then c ++ p.netloc else c

/-- `deduplicate_urls` loop with its `seen_urls` set of canonical keys. -/
def dedupAux (seen : List String) : List (String × String) → List (String × String)
  | [] => []
  | (u, c) :: rest =>
    let key := canonKey u
    if key ∈ seen then dedupAux seen rest
    else (cleanUrl u, c) :: dedupAux (key :: seen) rest

/-- `deduplicate_urls(urls_with_context)` from `scraping.py`. -/
def deduplicate_urls (urls_with_context : List (String × String)) : List (String × String) :=
  dedupAux [] urls_with_context

/-! ## `SmartPageClassifier` (scraping.py 299-447)

Every `url_patterns` entry in the source is a regex consisting solely of
literal characters (letters, digits, `-`, `/`), so `re.search(pattern,
url_lower)` is exactly a substring test; the embedding uses substring
containment throughout. -/

structure PageTypeKeywords where
  url_patterns : List String
  link_text : List String
  content_indicators : List String
deriving Repr, DecidableEq

def aboutKeywords : PageTypeKeywords where
  url_patterns :=
    ["/about", "/about-us", "/about-company", "/our-story",
     "/who-we-are", "/mission", "/vision", "/values",
     "/company", "/overview", "/history", "/story",
     "/why-us", "/our-mission", "/our-vision"]
  link_text :=
    ["about", "about us", "about company", "our story",
     "who we are", "mission", "vision", "company", "overview",
     "story", "history", "background", "why us", "our mission"]
  content_indicators :=
    ["founded", "established", "our mission", "our vision",
     "company history", "who we are", "what we do", "our story",
     "why we exist", "our purpose"]

def productsKeywords : PageTypeKeywords where
  url_patterns :=
    ["/products", "/product", "/services", "/service", "/solutions", "/solution",
     "/offerings", "/platform", "/technology", "/features", "/what-we-do",
     "/portfolio", "/catalog", "/tools", "/capabilities", "/how-it-works",
     "/pricing", "/plans"]
  link_text :=
    ["products", "product", "services", "service", "solutions", "solution",
     "offerings", "platform", "technology", "features", "what we do",
     "portfolio", "catalog", "tools", "capabilities", "how it works",
     "pricing", "plans", "get started"]
  content_indicators :=
    ["our products", "our services", "what we offer",
     "solutions", "features", "capabilities", "platform",
     "how it works", "pricing", "plans"]

def teamKeywords : PageTypeKeywords where
  url_patterns :=
    ["/team", "/our-team", "/leadership", "/management",
     "/founders", "/people", "/board", "/executives",
     "/staff", "/directors", "/advisors", "/meet-the-team",
     "/our-people", "/who-we-are"]
  link_text :=
    ["team", "our team", "leadership", "management",
     "founders", "people", "board", "executives", "staff",
     "advisors", "directors", "meet the team", "our people",
     "who we are"]
  content_indicators :=
    ["our team", "leadership team", "founders", "executives",
     "management", "board of directors", "meet the team",
     "our people", "who we are"]

def contactKeywords : PageTypeKeywords where
  url_patterns :=
    ["/contact", "/contact-us", "/get-in-touch", "/reach-us",
     "/locations", "/offices", "/support", "/help", "/reach-out",
     "/talk-to-us", "/schedule", "/demo", "/book"]
  link_text :=
    ["contact", "contact us", "get in touch", "reach us",
     "locations", "offices", "support", "help", "reach out",
     "talk to us", "schedule", "demo", "book", "get started"]
  content_indicators :=
    ["contact us", "get in touch", "phone", "email",
     "address", "location", "office", "reach out",
     "schedule", "demo", "book"]

def newsKeywords : PageTypeKeywords where
  url_patterns :=
    ["/news", "/blog", "/press", "/media", "/updates",
     "/insights", "/resources", "/articles", "/announcements",
     "/content", "/knowledge", "/learn"]
  link_text :=
    ["news", "blog", "press", "media", "updates",
     "insights", "resources", "articles", "announcements",
     "content", "knowledge", "learn", "latest"]
  content_indicators :=
    ["latest news", "blog posts", "press releases",
     "media coverage", "announcements", "insights",
     "resources", "knowledge"]

def careersKeywords : PageTypeKeywords where
  url_patterns :=
    ["/careers", "/jobs", "/join-us", "/work-with-us",
     "/opportunities", "/positions", "/hiring", "/openings",
     "/jobs-board", "/employment"]
  link_text :=
    ["careers", "jobs", "join us", "work with us",
     "opportunities", "hiring", "openings", "employment",
     "job board", "work here"]
  content_indicators :=
    ["join our team", "career opportunities", "job openings",
     "work with us", "we are hiring", "employment"]

/-- `self.page_keywords`, in the dict's insertion order. -/
def page_keywords : List (String × PageTypeKeywords) :=
  [("about", aboutKeywords), ("products", productsKeywords),
   ("team", teamKeywords), ("contact", contactKeywords),
   ("news", newsKeywords), ("careers", careersKeywords)]

/-- The score the classifier accumulates for one page type:
`+4` on a URL-pattern hit, `+2` on a link-text hit, `+1` on a
content-indicator hit when content is nonempty (the inner `break`s make
each group contribute at most once, i.e. an `any`). -/
def typeScore (kw : PageTypeKeywords) (url link_text content : String) : Nat :=
  (if kw.url_patterns.any (fun p => strContains p (strToLower url)) then 4 else 0)
  + (if kw.link_text.any (fun t => strContains t (strToLower link_text)) then 2 else 0)
  + (if content ≠ "" && kw.content_indicators.any
        (fun i => strContains i (strToLower content)) then 1 else 0)

/-- `SmartPageClassifier.classify_page(url, link_text, content)`:
the page types whose score reaches the threshold 2, in table order. -/
def classify_page (url link_text content : String) : List String :=
  page_keywords.filterMap (fun e =>
    if 2 ≤ typeScore e.2 url link_text content then some e.1 else none)

/-! ## Company name / description extraction (scraping.py 884-981)

The BeautifulSoup inputs are abstracted to the fields the functions read:
the page title string, the `og:site_name` content, the description metas
and the first paragraph's text. -/

def marketing_keywords : List String :=
  ["get", "start", "try", "buy", "learn", "discover", "create", "build",
   "best", "top", "leading", "ultimate", "perfect", "easy", "simple",
   "that", "which", "for your", "solution", "platform", "software"]

/-- `looks_like_marketing(text)` from `extract_company_name`. -/
def looks_like_marketing (text : String) : Bool :=
  if text = "" || text.length > 60 then true
  else
    let lower := strToLower text
    2 ≤ (marketing_keywords.filter (fun k => strContains k lower)).length

/-- `extract_from_domain(url)` from `extract_company_name`: strip `www.`,
take the first dot-label, turn separators into spaces, capitalize words. -/
def extract_from_domain (url : String) : String :=
  let domain := (urlparse url).netloc
  let domain := if startsWithStr "www." domain then ⟨domain.data.drop 4⟩ else domain
  let domainName := (splitOnChar '.' domain).headD ""
  let companyName : String :=
    ⟨domainName.data.map (fun c => if c == '-' || c == '_' then ' ' else c)⟩
  strIntercalate " " ((pyWords companyName).map pyCapitalize)

def titleSeparators : List Char := ['|', '-', '–', ':', '•']

/-- The candidate list contributed by the page title: the first separator
present splits the title and every stripped, non-marketing part is kept; if
the loop produced nothing and the whole title is not marketing, the whole
title is the one candidate. -/
def titleCandidates (title : String) : List String :=
  let fromSep :=
    match titleSeparators.find? (fun sep => containsChar sep title) with
    | some sep => (splitOnChar sep title).filterMap (fun part =>
        let part := pyStrip part
        if part ≠ "" && !looks_like_marketing part then some part else none)
    | none => []
  if fromSep.isEmpty && !looks_like_marketing title then [title] else fromSep

/-- `extract_company_name(soup, url)`: title candidates, then
`og:site_name`, then the domain fallback.  `title` is
`soup.title.string.strip()` when the page has a title; `ogSiteName` is the
raw `content` attribute of the `og:site_name` meta tag when present. -/
def extract_company_name (title ogSiteName : Option String) (url : String) : String :=
  let candidates :=
    match title with
    | some t => titleCandidates (pyStrip t)
    | none => []
  let candidates :=
    match ogSiteName with
    | some c =>
      if c ≠ "" then
        let siteName := pyStrip c
        if !looks_like_marketing siteName then candidates ++ [siteName] else candidates
      else candidates
    | none => candidates
  match candidates with
  | n :: _ => n
  | [] => extract_from_domain url

/-- `extract_description(soup)`: meta description, else Open Graph
description, else the first paragraph when longer than 50 characters
(truncated to 300). -/
def extract_description (metaDesc ogDesc firstParagraph : Option String) : String :=
  match metaDesc with
  | some c => if c ≠ "" then pyStrip c else
      match ogDesc with
      | some o => if o ≠ "" then pyStrip o else
          match firstParagraph with
          | some p => let t := pyStrip p; if t.length > 50 then strTake t 300 else ""
          | none => ""
      | none =>
          match firstParagraph with
          | some p => let t := pyStrip p; if t.length > 50 then strTake t 300 else ""
          | none => ""
  | none =>
      match ogDesc with
      | some o => if o ≠ "" then pyStrip o else
          match firstParagraph with
          | some p => let t := pyStrip p; if t.length > 50 then strTake t 300 else ""
          | none => ""
      | none =>
          match firstParagraph with
          | some p => let t := pyStrip p; if t.length > 50 then strTake t 300 else ""
          | none => ""

/-! ## Link discovery (scraping.py 533-642)

The parsed document is abstracted to the pieces the discoverer reads:
the `<a href>` anchors with their stripped text and the stripped texts of
their ancestors (nearest first, up to but excluding `<body>`), elements
with a `data-href` attribute, the page's full lower-casable text, and the
stripped texts of clickable elements inside navigation containers, in
document order. -/

structure AnchorTag where
  href : String
  text : String
  ancestors : List String
deriving Repr, DecidableEq

structure PageAbs where
  anchors : List AnchorTag
  dataHrefs : List (String × String)
  allText : String
  navTexts : List String
deriving Repr, DecidableEq

def genericAnchorTexts : List String := ["home", "here", "click", "more", "»", "›"]

/-- The anchor-text filter of Method 1: empty, shorter than 2 characters,
or generic boilerplate. -/
def isBadAnchorText (t : String) : Bool :=
  t = "" || t.length < 2 || strToLower t ∈ genericAnchorTexts

/-- The context walk: first nonempty ancestor text, truncated to 100
characters. -/
def parentContext (ancestors : List String) : String :=
  match ancestors.find? (fun t => t ≠ "") with
  | some t => strTake t 100
  | none => ""

/-- One Method-1 step over the `(collected links, seen_urls)` state for a
single `<a href>` tag, translating lines 541-570 of the source. -/
def method1Step (base_url : String) (st : List (String × String) × List String)
    (a : AnchorTag) : List (String × String) × List String :=
  let (links, seen) := st
  let href := pyStrip a.href
  if href = "" || startsWithStr "mailto:" href || startsWithStr "tel:" href
      || startsWithStr "javascript:" href then st
  else
    let normalized := normalize_url href base_url
    if normalized = "" || should_skip_url normalized then st
    else if normalized ∈ seen then st
    else
      let baseDomain := rstripSlash base_url
      if normalized ∈ [baseDomain, baseDomain ++ "/", baseDomain ++ "/index.html",
                       baseDomain ++ "/home"] then st
      else
        let seen := normalized :: seen
        if isBadAnchorText a.text then (links, seen)
        else
          let context := pyStrip (a.text ++ " " ++ parentContext a.ancestors)
          (links ++ [(normalized, context)], seen)

/-- One Method-2 step for an element carrying `data-href`. -/
def method2Step (base_url : String) (st : List (String × String) × List String)
    (e : String × String) : List (String × String) × List String :=
  let (links, seen) := st
  let href := pyStrip e.1
  if href ≠ "" then
    let normalized := normalize_url href base_url
    if normalized ≠ "" && !should_skip_url normalized && normalized ∉ seen then
      (links ++ [(normalized, e.2)], normalized :: seen)
    else st
  else st

/-- The `common_pages` table shared by Methods 3-5. -/
def common_pages : List (String × List String) :=
  [("about", ["about", "about-us", "about-company", "our-story", "company", "who-we-are"]),
   ("products", ["products", "product", "solutions", "services", "platform", "features"]),
   ("team", ["team", "our-team", "leadership", "founders", "people", "management"]),
   ("contact", ["contact", "contact-us", "get-in-touch", "reach-us", "support"]),
   ("news", ["news", "blog", "press", "media", "updates", "insights", "resources"]),
   ("careers", ["careers", "jobs", "join-us", "work-with-us", "opportunities"])]

/-- The four candidate URLs Method 4 synthesizes for one keyword
variation. -/
def potentialUrls (base_url domain variation : String) : List String :=
  [base_url ++ "/" ++ variation,
   base_url ++ "/" ++ variation ++ "/",
   "https://" ++ domain ++ "/" ++ variation,
   if !startsWithStr "www." domain then "https://www." ++ domain ++ "/" ++ variation
   else "https://" ++ (⟨domain.data.drop 4⟩ : String) ++ "/" ++ variation]

/-- Method 4's inner loop: add the first synthesized URL that is unseen and
not skipped (the `break` leaves the remaining candidates untried). -/
def method4TryUrls (variation : String) (st : List (String × String) × List String) :
    List String → List (String × String) × List String
  | [] => st
  | u :: rest =>
    if u ∉ st.2 && !should_skip_url u then
      (st.1 ++ [(u, variation ++ " (discovered from content)")], u :: st.2)
    else method4TryUrls variation st rest

/-- Method 4 over one page type's variation list.  Note the source's
`break` only leaves the candidate-URL loop, so several variations of the
same page type can all be added. -/
def method4Type (base_url domain allTextLower : String)
    (st : List (String × String) × List String) (variations : List String) :
    List (String × String) × List String :=
  variations.foldl
    (fun st variation =>
      if strContains variation allTextLower then
        method4TryUrls variation st (potentialUrls base_url domain variation)
      else st) st

/-- One Method-5 step for the stripped text of a clickable element found
inside a navigation container. -/
def method5Step (base_url : String) (st : List (String × String) × List String)
    (rawText : String) : List (String × String) × List String :=
  let text := strToLower rawText
  if text ≠ "" && text.length > 2 then
    common_pages.foldl
      (fun st tv =>
        if text ∈ tv.2 then
          let potential := base_url ++ "/" ++ text
          if potential ∉ st.2 && !should_skip_url potential then
            (st.1 ++ [(potential, text ++ " (from navigation)")], potential :: st.2)
          else st
        else st) st
  else st

/-- `extract_links_with_context(soup, base_url)`: Methods 1, 2, 4 and 5 in
source order over the abstracted page. -/
def extract_links_with_context (page : PageAbs) (base_url : String) :
    List (String × String) :=
  let st : List (String × String) × List String := ([], [])
  let st := page.anchors.foldl (method1Step base_url) st
  let st := page.dataHrefs.foldl (method2Step base_url) st
  let domain := (urlparse base_url).netloc
  let allTextLower := strToLower page.allText
  let st := common_pages.foldl
    (fun st tv => method4Type base_url domain allTextLower st tv.2) st
  let st := page.navTexts.foldl (method5Step base_url) st
  st.1

/-! ## Social links (scraping.py 983-1017) -/

def social_platforms : List (String × List String) :=
  [("twitter", ["twitter.com", "x.com"]),
   ("linkedin", ["linkedin.com"]),
   ("facebook", ["facebook.com"]),
   ("instagram", ["instagram.com"]),
   ("github", ["github.com"]),
   ("youtube", ["youtube.com"])]

/-- Python dict assignment `d[k] = v`: overwrite in place, else append. -/
def assocSet (k : String) (v : α) : List (String × α) → List (String × α)
  | [] => [(k, v)]
  | (k', v') :: rest => if k' = k then (k, v) :: rest else (k', v') :: assocSet k v rest

def assocFind (k : String) : List (String × α) → Option α
  | [] => none
  | (k', v) :: rest => if k' = k then some v else assocFind k rest

/-- The platform loop of `extract_social_links` for one anchor: on a domain
hit, store the (possibly `https:`-completed) href and `break`; a
non-`http` relative hit just moves to the next platform. -/
def socialStep (acc : List (String × String)) (href : String) :
    List (String × List String) → List (String × String)
  | [] => acc
  | (platform, domains) :: rest =>
    if domains.any (fun d => strContains d href) then
      if startsWithStr "//" href then assocSet platform ("https:" ++ href) acc
      else if !startsWithStr "http" href then socialStep acc href rest
      else assocSet platform href acc
    else socialStep acc href rest

/-- `extract_social_links(soup)` over the page's `<a href>` anchors. -/
def extract_social_links (anchors : List AnchorTag) : List (String × String) :=
  anchors.foldl (fun acc a => socialStep acc (strToLower a.href) social_platforms) []

/-! ## Link verification, classification, additional discovery
(scraping.py 1157-1242)

`headResp`/`getResp` are the HTTP oracles for `session.head` and
`session.get` existence checks: `none` models a raised exception, `some s`
a response with status `s` after redirects. -/

/-- One candidate passes the existence check: `HEAD` status `< 400`, or,
only when `HEAD` raises, `GET` status `< 400`. -/
def linkVerifies (headResp getResp : String → Option Nat) (u : String) : Bool :=
  match headResp u with
  | some s => s < 400
  | none =>
    match getResp u with
    | some s => s < 400
    | none => false

/-- The verification loop (lines 1161-1188): same-domain, not the seed,
not yet in `unique_links`, and passing the existence check. -/
def mainVerify (url : String) (headResp getResp : String → Option Nat) :
    List String → List (String × String) → List (String × String)
  | _, [] => []
  | seen, (u, c) :: rest =>
    if is_same_domain u url && u ≠ url then
      if u ∈ seen then mainVerify url headResp getResp seen rest
      else if linkVerifies headResp getResp u then
        (u, c) :: mainVerify url headResp getResp (u :: seen) rest
      else mainVerify url headResp getResp (u :: seen) rest
    else mainVerify url headResp getResp seen rest

/-- Append `(u, c)` to the `classification` bucket of `classified_pages`,
unless an equivalent URL is already classified there (lines 1193-1197); a
missing bucket is created at the end, as `defaultdict` insertion does. -/
def appendClassified (cp : List (String × List (String × String)))
    (classification : String) (e : String × String) :
    List (String × List (String × String)) :=
  match assocFind classification cp with
  | some bucket =>
    if bucket.any (fun ex => urls_are_equivalent e.1 ex.1) then cp
    else assocSet classification (bucket ++ [e]) cp
  | none => cp ++ [(classification, [e])]

/-- Classify every verified link into `classified_pages`
(lines 1191-1197; the content argument defaults to `""`). -/
def classifyVerified (verified : List (String × String)) :
    List (String × List (String × String)) :=
  verified.foldl
    (fun cp e => (classify_page e.1 e.2 "").foldl (fun cp t => appendClassified cp t e) cp)
    []

/-- The conventional path slugs of the supplementary discovery pass
(lines 1207-1213). -/
def common_paths : List String :=
  ["about", "about-us", "company", "our-story", "who-we-are",
   "products", "product", "services", "solutions", "platform", "features",
   "team", "our-team", "leadership", "founders", "people",
   "contact", "contact-us", "get-in-touch", "support",
   "news", "blog", "press", "media", "updates", "insights"]

/-- The supplementary direct-discovery loop (lines 1216-1239): probe each
conventional slug with `HEAD`, skipping URLs equivalent to an already
discovered one, and stop after 5 additions. -/
def additionalLoop (base_url : String) (headResp : String → Option Nat) :
    List String → List (String × String) → List (String × List (String × String)) →
    Nat → List (String × String) × List (String × List (String × String))
  | [], disc, cp, _ => (disc, cp)
  | p :: rest, disc, cp, found =>
    let testUrl := base_url ++ "/" ++ p
    if disc.any (fun ex => urls_are_equivalent testUrl ex.1) then
      additionalLoop base_url headResp rest disc cp found
    else
      match headResp testUrl with
      | some s =>
        if s < 400 then
          let entry := (testUrl, p ++ " (direct discovery)")
          let disc := disc ++ [entry]
          let cp := (classify_page testUrl p "").foldl
            (fun cp t => appendClassified cp t entry) cp
          if 5 ≤ found + 1 then (disc, cp)
          else additionalLoop base_url headResp rest disc cp (found + 1)
        else additionalLoop base_url headResp rest disc cp found
      | none => additionalLoop base_url headResp rest disc cp found

/-- Steps 4 and the supplementary pass combined: verify and classify the
deduplicated links, then, when fewer than 3 pages were discovered, probe
the conventional slugs.  Returns `(all_discovered_links, classified_pages)`. -/
def discoverClassify (links : List (String × String)) (url base_url : String)
    (headResp getResp : String → Option Nat) :
    List (String × String) × List (String × List (String × String)) :=
  let verified := mainVerify url headResp getResp [] links
  let cp := classifyVerified verified
  if verified.length < 3 then additionalLoop base_url headResp common_paths verified cp 0
  else (verified, cp)

/-! ## Crawl prioritizer (scraping.py 1245-1276) -/

def key_page_types : List String := ["about", "team", "products", "contact", "news"]

/-- One iteration of the key-type pass for page type `pt`: take the first
page of the bucket if the bucket is nonempty and slots
(`max_pages - 1`, one reserved for the seed page) remain. -/
def selectStep (cp : List (String × List (String × String))) (max_pages : Int)
    (acc : List (String × String × String)) (pt : String) :
    List (String × String × String) :=
  match assocFind pt cp with
  | some (e :: _) =>
    if (acc.length : Int) < max_pages - 1 then acc ++ [(e.1, e.2, pt)] else acc
  | _ => acc

/-- The key-type pass: one page per key type, in fixed order, while slots
remain. -/
def select_key_pages (cp : List (String × List (String × String)))
    (max_pages : Int) : List (String × String × String) :=
  key_page_types.foldl (selectStep cp max_pages) []

/-- Python's stable ascending sort by the key
`(len(url.split('/')), url)`. -/
def priorityKeyLt (a b : String × String × String) : Bool :=
  let ka := (splitOnChar '/' a.1).length
  let kb := (splitOnChar '/' b.1).length
  if ka < kb then true
  else if ka = kb then strLtB a.1 b.1
  else false

def insSorted (x : String × String × String) :
    List (String × String × String) → List (String × String × String)
  | [] => [x]
  | y :: ys => if priorityKeyLt x y then x :: y :: ys else y :: insSorted x ys

/-- Stable insertion sort, matching `list.sort(key=...)`. -/
def pySort (l : List (String × String × String)) : List (String × String × String) :=
  l.foldl (fun acc x => insSorted x acc) []

/-- The slot-filling candidates: every classified entry — of every bucket,
`careers` included — whose URL is not already among the selected pages. -/
def remainingClassified (cp : List (String × List (String × String)))
    (priority : List (String × String × String)) :
    List (String × String × String) :=
  cp.flatMap (fun b =>
    b.2.filterMap (fun e =>
      if priority.any (fun p => p.1 == e.1) then none else some (e.1, e.2, b.1)))

/-- The slot-filling pass plus the key-type pass: `prioritize` of the spec
(Step 5 of `scrape_website`).  The slot-filling pass draws from every
classified bucket — including `careers` — excludes URLs already selected,
sorts by path-segment count then lexicographically, and takes the
remaining slots. -/
def prioritize_pages (cp : List (String × List (String × String)))
    (max_pages : Int) : List (String × String × String) :=
  let priority := select_key_pages cp max_pages
  let remaining : Int := max_pages - (priority.length : Int) - 1
  if 0 < remaining then
    priority ++ (pySort (remainingClassified cp priority)).take remaining.toNat
  else priority

/-! ## The prioritized fetch loop and final aggregate
(scraping.py 1046-1454)

A fetched subpage is abstracted to the data the loop reads from it: the
`content-type` header, the cleaned main-content text (the noise filter and
content extractor operate on the DOM and are modelled as this opaque
output), the page title, and the outputs of the four entity extractors on
that page.  `pageFetch u = none` models `session.get` raising or
`raise_for_status` firing, which the per-page `except` swallows. -/

structure PageData where
  contentType : String
  cleanedText : String
  title : Option String
  contact : List (String × List String)
  team : List (String × String)
  products : List (String × String)
  news : List (String × String × String)
deriving Repr, DecidableEq

structure PageRec where
  url : String
  type : String
  title : String
  word_count : Nat
deriving Repr, DecidableEq

structure ScrapeParts where
  about_page : Option String := none
  contact_info : List (String × List String) := []
  team_info : List (String × String) := []
  products_services : List (String × String) := []
  news_data : List (String × String × String) := []
deriving Repr, DecidableEq

structure LoopState where
  parts : ScrapeParts
  allText : String
  scrapedUrls : List String
  pages : List PageRec
deriving Repr, DecidableEq

/-- `list(dict.fromkeys(xs))`: keep first occurrences in order. -/
def dedupKeepFirst : List String → List String
  | [] => []
  | x :: rest =>
    x :: dedupKeepFirst (rest.filter (fun y => y ≠ x))
termination_by l => l.length
decreasing_by
  simp only [List.length_cons]
  exact Nat.lt_succ_of_le (List.length_filter_le _ _)

/-- Merge one page's `contact_info` dict into the accumulator: extend the
key's list then deduplicate preserving order (lines 1353-1361). -/
def mergeContact (acc new : List (String × List String)) : List (String × List String) :=
  new.foldl
    (fun acc kv =>
      match assocFind kv.1 acc with
      | some old => assocSet kv.1 (dedupKeepFirst (old ++ kv.2)) acc
      | none => acc ++ [(kv.1, kv.2)])
    acc

/-- Deduplicate team members by name, keeping first occurrences
(lines 1417-1425 and 753-759 share this shape). -/
def dedupByName : List (String × String) → List (String × String)
  | [] => []
  | m :: rest =>
    m :: dedupByName (rest.filter (fun x => x.1 ≠ m.1))
termination_by l => l.length
decreasing_by
  simp only [List.length_cons]
  exact Nat.lt_succ_of_le (List.length_filter_le _ _)

/-- One iteration of the Step-6 loop over a prioritized page
`(page_url, context, page_type)`: skip already-scraped equivalents and the
seed, skip on fetch failure or non-HTML content type, otherwise append the
banner-prefixed text and merge the page-type-specific extraction. -/
def fetchStep (url : String) (pageFetch : String → Option PageData)
    (st : LoopState) (e : String × String × String) : LoopState :=
  let pu := e.1
  let pt := e.2.2
  if st.scrapedUrls.any (fun s => urls_are_equivalent pu s) then st
  else if pu = url then st
  else
    match pageFetch pu with
    | none => st
    | some pd =>
      if !(strContains "text/html" (strToLower pd.contentType)
           || strContains "application/xhtml" (strToLower pd.contentType)) then st
      else
        let cleaned := pd.cleanedText
        let allText := st.allText ++ "\n\n--- " ++ strToUpper pt ++ " PAGE: " ++ pu
          ++ " ---\n" ++ cleaned
        let parts := st.parts
        let newTeam :=
          pd.team.filter (fun m => !parts.team_info.any (fun x => x.1 = m.1))
        let newProducts :=
          pd.products.filter (fun p => !parts.products_services.any (fun x => x.1 = p.1))
        let newNews :=
          pd.news.filter (fun n => !parts.news_data.any (fun x => x.1 = n.1))
        let parts :=
          if pt = "about" then
            if parts.about_page.isNone then { parts with about_page := some cleaned }
            else parts
          else if pt = "contact" then
            { parts with contact_info := mergeContact parts.contact_info pd.contact }
          else if pt = "team" then
            { parts with team_info := parts.team_info ++ newTeam }
          else if pt = "products" then
            { parts with products_services := parts.products_services ++ newProducts }
          else if pt = "news" then
            { parts with news_data := parts.news_data ++ newNews }
          else parts
        { parts := parts
          allText := allText
          scrapedUrls := st.scrapedUrls ++ [pu]
          pages := st.pages
            ++ [⟨pu, pt, pd.title.getD (pyCapitalize pt ++ " Page"), wordCount cleaned⟩] }

/-- The `ScrapedData` pydantic model. -/
structure ScrapedData where
  company_name : String
  description : String
  raw_text : String
  team_info : Option (List (String × String)) := none
  social_links : Option (List (String × String)) := none
  about_page : Option String := none
  contact_info : Option (List (String × List String)) := none
  products_services : Option (List (String × String)) := none
  news_data : Option (List (String × String × String)) := none
  pages_scraped : Option (List PageRec) := none
  total_pages_found : Option Nat := none
deriving Repr, DecidableEq

/-- The seed page, abstracted to the data `scrape_website` reads from the
parsed main document. -/
structure SeedPage where
  page : PageAbs
  title : Option String
  ogSiteName : Option String
  metaDescription : Option String
  ogDescription : Option String
  firstParagraph : Option String
  mainText : String
deriving Repr, DecidableEq

/-- The degraded result returned when the seed fetch raises
(lines 1098-1113): the netloc as company name, the error message as
description, empty text and every optional field left at its default. -/
def degradedSeedResult (url errMsg : String) : ScrapedData :=
  { company_name := (urlparse url).netloc
    description := "Error fetching website: " ++ errMsg
    raw_text := "" }

/-- `scrape_website(url, max_pages)` with the network abstracted:
`seed` is the outcome of fetching and parsing the main page, `headResp`
and `getResp` drive the existence checks and `pageFetch` the prioritized
content fetches.  The value is `Except.ok` on every path the embedding
models, but this totality is a limit of the model, not a property of the
program: the source's outermost handler (lines 1451-1454) re-raises any
exception escaping steps 2-7, and such exceptions are reachable — link
discovery (line 1149) calls `normalize_url` unguarded, and CPython's
`urlsplit` raises `ValueError` on bracket-malformed hosts such as a href
`"//["`, where the embedding's `urlparse` is total.  Theorems about this
function therefore must not read its `Except.ok`-on-every-path shape as
"the program never errors"; only the seed-failure branch and the
per-page fetch-failure skip are claimed. -/
def scrape_website (url : String) (max_pages : Int)
    (seed : Except String SeedPage) (headResp getResp : String → Option Nat)
    (pageFetch : String → Option PageData) : Except String ScrapedData :=
  match seed with
  | .error e => .ok (degradedSeedResult url e)
  | .ok sp =>
    let company_name := extract_company_name sp.title sp.ogSiteName url
    let description := extract_description sp.metaDescription sp.ogDescription
      sp.firstParagraph
    let social_links := extract_social_links sp.page.anchors
    let all_text := "--- MAIN PAGE ---\n" ++ sp.mainText
    let mainRec : PageRec := ⟨url, "main", sp.title.getD "Main Page", wordCount sp.mainText⟩
    let base_url := (urlparse url).scheme ++ "://" ++ (urlparse url).netloc
    let links := deduplicate_urls (extract_links_with_context sp.page base_url)
    let dc := discoverClassify links url base_url headResp getResp
    let priority := prioritize_pages dc.2 max_pages
    let st := priority.foldl (fetchStep url pageFetch)
      { parts := {}, allText := all_text, scrapedUrls := [], pages := [] }
    let team := dedupByName st.parts.team_info
    .ok
      { company_name := company_name
        description := description
        raw_text := st.allText
        team_info := if team.isEmpty then none else some team
        social_links := if social_links.isEmpty then none else some social_links
        about_page := st.parts.about_page
        contact_info := if st.parts.contact_info.isEmpty then none
          else some st.parts.contact_info
        products_services := if st.parts.products_services.isEmpty then none
          else some st.parts.products_services
        news_data := if st.parts.news_data.isEmpty then none else some st.parts.news_data
        pages_scraped := some (mainRec :: st.pages)
        total_pages_found := some dc.1.length }

/-! # Theorems -/

/-! ## Generic helper lemmas -/

lemma mem_filterMap_if {P : String × PageTypeKeywords → Prop} [DecidablePred P]
    (L : List (String × PageTypeKeywords)) (pt : String)
    (hnd : (L.map Prod.fst).Nodup) :
    pt ∈ L.filterMap (fun e => if P e then some e.1 else none) ↔
      ∃ kw, L.find? (fun e => e.1 == pt) = some (pt, kw) ∧ P (pt, kw) := by
  induction L with
  | nil => simp
  | cons e rest ih =>
    obtain ⟨k, kw0⟩ := e
    simp only [List.map_cons, List.nodup_cons] at hnd
    by_cases hk : pt = k
    · subst hk
      have hnotin : pt ∉ rest.map Prod.fst := hnd.1
      constructor
      · intro hmem
        simp only [List.filterMap_cons] at hmem
        by_cases hP : P (pt, kw0)
        · exact ⟨kw0, by simp [List.find?_cons], hP⟩
        · rw [if_neg hP] at hmem
          exfalso
          rw [List.mem_filterMap] at hmem
          obtain ⟨a, ha, hfa⟩ := hmem
          have ha1 : a.1 = pt := by
            by_cases h : P a
            · simpa [h] using hfa
            · simp [h] at hfa
          exact hnotin (ha1 ▸ List.mem_map_of_mem Prod.fst ha)
      · rintro ⟨kw, hfind, hP⟩
        have hkw : kw = kw0 := by
          simp only [List.find?_cons, beq_self_eq_true, if_pos] at hfind
          injection hfind with h1
          exact congrArg Prod.snd h1.symm
        subst hkw
        simp only [List.filterMap_cons, if_pos hP]
        exact List.mem_cons_self _ _
    · have hbeq : ((k, kw0).1 == pt) = false := by
        simp [Ne.symm hk]
      have hstep : ((k, kw0) :: rest).find? (fun e => e.1 == pt) =
          rest.find? (fun e => e.1 == pt) := by
        rw [List.find?_cons, hbeq]
      simp only [List.filterMap_cons]
      by_cases hP : P (k, kw0)
      · rw [if_pos hP, hstep]
        rw [← ih hnd.2]
        constructor
        · intro h
          rcases List.mem_cons.mp h with h | h
          · exact absurd h hk
          · exact h
        · intro h
          exact List.mem_cons_of_mem _ h
      · rw [if_neg hP, hstep]
        exact ih hnd.2
/-! ## C4 — classifier threshold semantics -/

/-- C4: for every `(url, anchorText, content)` triple and every label
category, `classify_page` assigns the label iff the accumulated score —
4 for a URL-path match, plus 2 for an anchor-text keyword match, plus 1
for a content keyword match when content is nonempty (`typeScore`) — is
at least 2; in particular the URL `/our-team` with anchor text
"Leadership" receives the label `team`. -/
theorem classify_page_score_threshold :
    (∀ url link_text content pt,
        pt ∈ classify_page url link_text content ↔
          ∃ kw, page_keywords.find? (fun e => e.1 == pt) = some (pt, kw) ∧
            2 ≤ typeScore kw url link_text content)
    ∧ "team" ∈ classify_page "/our-team" "Leadership" "" := by
  constructor
  · intro url link_text content pt
    exact mem_filterMap_if page_keywords pt (by decide)
  · decide

/-- Instantiation of the C4 threshold theorem at the spec's coverage
example. -/
theorem classify_page_score_threshold_example :
    ∃ kw, page_keywords.find? (fun e => e.1 == "team") = some ("team", kw) ∧
      2 ≤ typeScore kw "/our-team" "Leadership" "" :=
  (classify_page_score_threshold.1 "/our-team" "Leadership" "" "team").mp
    classify_page_score_threshold.2

/-! ## URL-component character lemmas (for C5/C10) -/

lemma char_toNat_ofNat {n : Nat} (h : n.isValidChar) : (Char.ofNat n).toNat = n := by
  unfold Char.ofNat
  rw [dif_pos h]
  unfold Char.ofNatAux Char.toNat
  simp [UInt32.toNat]

lemma toLower_schemeChar_ne (c : Char) (h : isSchemeChar c = true) :
    Char.toLower c ≠ '?' ∧ Char.toLower c ≠ '#' := by
  unfold Char.toLower
  by_cases hn : c.toNat ≥ 65 ∧ c.toNat ≤ 90
  · simp only [hn, and_self, if_true]
    have hval : (c.toNat + 32).isValidChar := by
      unfold Nat.isValidChar
      left
      omega
    have hq : ('?' : Char).toNat = 63 := by decide
    have hh : ('#' : Char).toNat = 35 := by decide
    constructor
    · intro heq
      have h2 := congrArg Char.toNat heq
      rw [char_toNat_ofNat hval] at h2
      omega
    · intro heq
      have h2 := congrArg Char.toNat heq
      rw [char_toNat_ofNat hval] at h2
      omega
  · simp only [hn, if_false]
    constructor
    · intro heq
      subst heq
      exact absurd h (by decide)
    · intro heq
      subst heq
      exact absurd h (by decide)

lemma splitScheme_chars {l : List Char} {c : Char}
    (h : c ∈ ((splitScheme l).1 : String).data) :
    ∃ d, isSchemeChar d = true ∧ c = Char.toLower d := by
  unfold splitScheme at h
  rcases hgo : splitScheme.go [] l with _ | ⟨before, after⟩
  · rw [hgo] at h
    simp at h
  · rw [hgo] at h
    rcases before with _ | ⟨b, bs⟩
    · simp at h
    · dsimp only at h
      by_cases hcond : b.isAlpha && (b :: bs).all isSchemeChar
      · rw [if_pos hcond] at h
        simp only [List.mem_map] at h
        obtain ⟨d, hd, hld⟩ := h
        refine ⟨d, ?_, hld.symm⟩
        have hall := (Bool.and_eq_true_iff.mp hcond).2
        exact (List.all_eq_true.mp hall) d hd
      · rw [if_neg hcond] at h
        simp at h

lemma splitAtFirst_fst_not (c : Char) (l : List Char) :
    c ∉ (splitAtFirst c l).1 := by
  induction l with
  | nil => simp [splitAtFirst]
  | cons d rest ih =>
    by_cases hd : d == c
    · simp [splitAtFirst, hd]
    · simp only [splitAtFirst, hd, Bool.false_eq_true, if_false]
      intro hmem
      rcases List.mem_cons.mp hmem with heq | hmem'
      · exact absurd (beq_iff_eq.mpr heq.symm) (by simpa using hd)
      · exact ih hmem'

lemma splitAtFirst_fst_subset {c x : Char} {l : List Char}
    (h : x ∈ (splitAtFirst c l).1) : x ∈ l := by
  induction l with
  | nil => simp [splitAtFirst] at h
  | cons d rest ih =>
    by_cases hd : d == c
    · simp [splitAtFirst, hd] at h
    · simp only [splitAtFirst, hd, Bool.false_eq_true, if_false] at h
      rcases List.mem_cons.mp h with heq | hmem'
      · exact heq ▸ List.mem_cons_self _ _
      · exact List.mem_cons_of_mem _ (ih hmem')

lemma rstripSlash_subset {x : Char} {s : String}
    (h : x ∈ (rstripSlash s).data) : x ∈ s.data := by
  unfold rstripSlash at h
  simp only [List.mem_reverse] at h
  have := (List.dropWhile_sublist _).mem h
  simpa using this


lemma netlocSplit_fst_chars (l : List Char) :
    ∀ c ∈ (netlocSplit l).1, isNetlocEnd c = false := by
  unfold netlocSplit
  split
  · intro c hc
    have := List.mem_takeWhile_imp hc
    simpa using this
  · intro c hc
    simp at hc

/-- No component of `urlparse s` used by `cleanUrl` contains `'?'` or
`'#'`: the scheme is lower-cased scheme characters, the netloc stops at
`'/'`, `'?'` or `'#'`, and the path lies before the first `'#'` and before
the first `'?'` of what follows the netloc. -/
lemma urlparse_components_clean (s : String) :
    (containsChar '?' (urlparse s).scheme = false
      ∧ containsChar '#' (urlparse s).scheme = false)
    ∧ (containsChar '?' (urlparse s).netloc = false
      ∧ containsChar '#' (urlparse s).netloc = false)
    ∧ (containsChar '?' (urlparse s).path = false
      ∧ containsChar '#' (urlparse s).path = false) := by
  have hscheme : ∀ c ∈ ((urlparse s).scheme).data, c ≠ '?' ∧ c ≠ '#' := by
    intro c hc
    have hex : ∃ d, isSchemeChar d = true ∧ c = Char.toLower d :=
      splitScheme_chars (@id (c ∈ ((splitScheme s.data).1 : String).data) hc)
    obtain ⟨d, hd, rfl⟩ := hex
    exact toLower_schemeChar_ne d hd
  have hnetloc : ∀ c ∈ ((urlparse s).netloc).data, c ≠ '?' ∧ c ≠ '#' := by
    intro c hc
    have := netlocSplit_fst_chars (splitScheme s.data).2 c hc
    unfold isNetlocEnd at this
    constructor
    · intro heq; subst heq; simp at this
    · intro heq; subst heq; simp at this
  have hpath : ∀ c ∈ ((urlparse s).path).data, c ≠ '?' ∧ c ≠ '#' := by
    intro c hc
    have hpq : c ∈ (splitAtFirst '?' (splitAtFirst '#' (netlocSplit (splitScheme s.data).2).2).1).1 := hc
    constructor
    · intro heq
      subst heq
      exact splitAtFirst_fst_not '?' _ hpq
    · intro heq
      subst heq
      exact splitAtFirst_fst_not '#' _ (splitAtFirst_fst_subset hpq)
  refine ⟨⟨?_, ?_⟩, ⟨?_, ?_⟩, ⟨?_, ?_⟩⟩ <;>
    · rw [containsChar, ← Bool.not_eq_true]
      intro hcont
      have hmem := List.elem_iff.mp hcont
      first
      | exact (hscheme _ hmem).1 rfl
      | exact (hscheme _ hmem).2 rfl
      | exact (hnetloc _ hmem).1 rfl
      | exact (hnetloc _ hmem).2 rfl
      | exact (hpath _ hmem).1 rfl
      | exact (hpath _ hmem).2 rfl

lemma containsChar_eq_false_iff {c : Char} {s : String} :
    containsChar c s = false ↔ c ∉ s.data := by
  show s.data.elem c = false ↔ c ∉ s.data
  rw [Bool.eq_false_iff]
  exact not_congr List.elem_iff

/-- The URL emitted for a kept candidate contains neither `'?'` nor `'#'`:
the query string and the fragment are dropped from the rewritten URL. -/
lemma cleanUrl_no_query_fragment (v : String) :
    containsChar '?' (cleanUrl v) = false ∧ containsChar '#' (cleanUrl v) = false := by
  obtain ⟨⟨hs1, hs2⟩, ⟨hn1, hn2⟩, ⟨hp1, hp2⟩⟩ := urlparse_components_clean (rstripSlash v)
  rw [containsChar_eq_false_iff] at hs1 hs2 hn1 hn2 hp1 hp2
  have hbase : ∀ x ∈ ((urlparse (rstripSlash v)).scheme ++ "://"
      ++ (urlparse (rstripSlash v)).netloc
      ++ rstripSlash (urlparse (rstripSlash v)).path).data, x ≠ '?' ∧ x ≠ '#' := by
    intro x hx
    rw [String.data_append] at hx
    rcases List.mem_append.mp hx with hx | hx
    · rw [String.data_append] at hx
      rcases List.mem_append.mp hx with hx | hx
      · rw [String.data_append] at hx
        rcases List.mem_append.mp hx with hx | hx
        · exact ⟨fun h => hs1 (h ▸ hx), fun h => hs2 (h ▸ hx)⟩
        · have hx' : x = ':' ∨ x = '/' ∨ x = '/' := by simpa using hx
          rcases hx' with rfl | rfl | rfl <;> exact ⟨by decide, by decide⟩
      · exact ⟨fun h => hn1 (h ▸ hx), fun h => hn2 (h ▸ hx)⟩
    · have hx' := rstripSlash_subset hx
      exact ⟨fun h => hp1 (h ▸ hx'), fun h => hp2 (h ▸ hx')⟩
  have hall : ∀ x ∈ (cleanUrl v).data, x ≠ '?' ∧ x ≠ '#' := by
    intro x hx
    unfold cleanUrl at hx
    dsimp only at hx
    by_cases hend : endsWithStr "://" ((urlparse (rstripSlash v)).scheme ++ "://"
        ++ (urlparse (rstripSlash v)).netloc ++ rstripSlash (urlparse (rstripSlash v)).path)
    · rw [if_pos hend] at hx
      rw [String.data_append] at hx
      rcases List.mem_append.mp hx with hx | hx
      · exact hbase x hx
      · exact ⟨fun h => hn1 (h ▸ hx), fun h => hn2 (h ▸ hx)⟩
    · rw [if_neg hend] at hx
      exact hbase x hx
  refine ⟨?_, ?_⟩
  · rw [containsChar_eq_false_iff]
    intro hmem
    exact (hall _ hmem).1 rfl
  · rw [containsChar_eq_false_iff]
    intro hmem
    exact (hall _ hmem).2 rfl

/-- The deduplication loop, characterized: the output is the image under
the URL rewrite of a sublist `srcs` of the input consisting of exactly the
first occurrence of every canonical key not yet in `seen`, with pairwise
distinct canonical keys. -/
lemma dedupAux_spec (l : List (String × String)) (seen : List String) :
    ∃ srcs : List (String × String),
      srcs.Sublist l
      ∧ dedupAux seen l = srcs.map (fun q => (cleanUrl q.1, q.2))
      ∧ ((srcs.map (fun q => canonKey q.1)).Nodup)
      ∧ (∀ q ∈ srcs, canonKey q.1 ∉ seen)
      ∧ (∀ q ∈ srcs, l.find? (fun r => canonKey r.1 == canonKey q.1) = some q) := by
  induction l generalizing seen with
  | nil =>
    exact ⟨[], List.Sublist.refl _, rfl, List.nodup_nil, by simp, by simp⟩
  | cons x rest ih =>
    obtain ⟨u, c⟩ := x
    by_cases hkey : canonKey u ∈ seen
    · obtain ⟨srcs, hsub, heq, hnd, hseen, hfind⟩ := ih seen
      refine ⟨srcs, hsub.cons _, ?_, hnd, hseen, ?_⟩
      · show dedupAux seen ((u, c) :: rest) = _
        unfold dedupAux
        rw [if_pos hkey]
        exact heq
      · intro q hq
        rw [List.find?_cons]
        have hne : (canonKey (u, c).1 == canonKey q.1) = false := by
          have := hseen q hq
          simp only [beq_eq_false_iff_ne, ne_eq]
          intro habs
          exact this (habs ▸ hkey)
        rw [hne]
        exact hfind q hq
    · obtain ⟨srcs, hsub, heq, hnd, hseen, hfind⟩ := ih (canonKey u :: seen)
      refine ⟨(u, c) :: srcs, hsub.cons₂ _, ?_, ?_, ?_, ?_⟩
      · show dedupAux seen ((u, c) :: rest) = _
        unfold dedupAux
        rw [if_neg hkey]
        rw [heq]
        rfl
      · rw [List.map_cons, List.nodup_cons]
        refine ⟨?_, hnd⟩
        intro hmem
        obtain ⟨q, hq, hkq⟩ := List.mem_map.mp hmem
        exact (hseen q hq) (hkq ▸ List.mem_cons_self _ _)
      · intro q hq
        rcases List.mem_cons.mp hq with rfl | hq'
        · exact hkey
        · intro habs
          exact (hseen q hq') (List.mem_cons_of_mem _ habs)
      · intro q hq
        rcases List.mem_cons.mp hq with rfl | hq'
        · rw [List.find?_cons]
          simp
        · rw [List.find?_cons]
          have hne : (canonKey (u, c).1 == canonKey q.1) = false := by
            have := hseen q hq'
            simp only [beq_eq_false_iff_ne, ne_eq]
            intro habs
            exact this (habs ▸ List.mem_cons_self _ _)
          rw [hne]
          exact hfind q hq'

/-! ## C5 — deduplication correctness -/

/-- C5: for every list of `(url, context)` candidates, the survivors of
`deduplicate_urls` are the rewrite of a sublist `srcs` of the input whose
canonical keys (`{netloc, path-without-trailing-slash}`, query and
fragment ignored) are pairwise distinct, and every kept entry is exactly
the first occurrence of its canonical key in input order — so the kept
context is the first-seen one. -/
theorem deduplicate_urls_correct (l : List (String × String)) :
    ∃ srcs : List (String × String),
      srcs.Sublist l
      ∧ deduplicate_urls l = srcs.map (fun q => (cleanUrl q.1, q.2))
      ∧ ((srcs.map (fun q => canonKey q.1)).Nodup)
      ∧ (∀ q ∈ srcs, l.find? (fun r => canonKey r.1 == canonKey q.1) = some q) := by
  obtain ⟨srcs, h1, h2, h3, _, h5⟩ := dedupAux_spec l []
  exact ⟨srcs, h1, h2, h3, h5⟩

/-- The C5 theorem instantiated at a list with a duplicated canonical key
(`/team/` and `/team?x=1` collide; the first context wins). -/
theorem deduplicate_urls_correct_witness :
    ∃ srcs : List (String × String),
      srcs.Sublist [("https://acme.io/team/", "first"),
                    ("https://acme.io/team?x=1", "second"),
                    ("https://acme.io/about", "third")]
      ∧ deduplicate_urls [("https://acme.io/team/", "first"),
                          ("https://acme.io/team?x=1", "second"),
                          ("https://acme.io/about", "third")]
          = srcs.map (fun q => (cleanUrl q.1, q.2))
      ∧ ((srcs.map (fun q => canonKey q.1)).Nodup)
      ∧ (∀ q ∈ srcs,
          [("https://acme.io/team/", "first"),
           ("https://acme.io/team?x=1", "second"),
           ("https://acme.io/about", "third")].find?
             (fun r => canonKey r.1 == canonKey q.1) = some q) :=
  deduplicate_urls_correct _

/-! ## C10 — survivors are rewritten without query and fragment -/

/-- C10: every URL surviving deduplication is the rewritten
`scheme://host/path-without-trailing-slashes` form of some input entry —
in particular it contains no `'?'` and no `'#'` — and a candidate
discovered as `/team?dept=eng` is emitted without its query string. -/
theorem deduplicate_urls_rewrites_query_free :
    (∀ l : List (String × String), ∀ p ∈ deduplicate_urls l,
        (∃ q ∈ l, p.2 = q.2 ∧ p.1 = cleanUrl q.1)
        ∧ containsChar '?' p.1 = false ∧ containsChar '#' p.1 = false)
    ∧ deduplicate_urls [("https://acme.io/team?dept=eng", "nav")]
        = [("https://acme.io/team", "nav")] := by
  constructor
  · intro l p hp
    obtain ⟨srcs, hsub, heq, _, _, _⟩ := dedupAux_spec l []
    have hp' : p ∈ srcs.map (fun q => (cleanUrl q.1, q.2)) := by
      rw [← heq]
      exact hp
    obtain ⟨q, hq, hpe⟩ := List.mem_map.mp hp'
    have hql : q ∈ l := hsub.subset hq
    subst hpe
    exact ⟨⟨q, hql, rfl, rfl⟩, (cleanUrl_no_query_fragment q.1).1,
      (cleanUrl_no_query_fragment q.1).2⟩
  · rfl

/-- The C10 theorem instantiated at the `/team?dept=eng` candidate. -/
theorem deduplicate_urls_rewrites_query_free_witness :
    (∃ q ∈ [("https://acme.io/team?dept=eng", "nav")],
        ("https://acme.io/team", "nav").2 = q.2
        ∧ ("https://acme.io/team", "nav").1 = cleanUrl q.1)
    ∧ containsChar '?' ("https://acme.io/team", "nav").1 = false
    ∧ containsChar '#' ("https://acme.io/team", "nav").1 = false :=
  deduplicate_urls_rewrites_query_free.1 [("https://acme.io/team?dept=eng", "nav")]
    ("https://acme.io/team", "nav") (by decide)

/-! ## String fixed-point lemmas (for C7) -/

lemma takeWhile_ne_of_not_mem {c : Char} {l : List Char} (h : c ∉ l) :
    l.takeWhile (· != c) = l := by
  induction l with
  | nil => rfl
  | cons d rest ih =>
    have hdc : (d != c) = true := by
      simp only [bne_iff_ne, ne_eq]
      intro habs
      exact h (habs ▸ List.mem_cons_self _ _)
    rw [List.takeWhile_cons, if_pos hdc, ih (fun hm => h (List.mem_cons_of_mem _ hm))]

lemma beforeFirst_eq_self {c : Char} {s : String}
    (h : containsChar c s = false) : beforeFirst c s = s := by
  rw [containsChar_eq_false_iff] at h
  unfold beforeFirst
  rw [takeWhile_ne_of_not_mem h]

lemma dropWhile_eq_self_of_head {p : Char → Bool} {l : List Char}
    (h : ∀ d, l.head? = some d → p d = false) : l.dropWhile p = l := by
  cases l with
  | nil => rfl
  | cons d rest =>
    rw [List.dropWhile_cons, h d rfl]
    simp

lemma pyStrip_eq_self {v : String} {rest : List Char} (hv : v.data = 'h' :: rest)
    (hws : endsWithPySpace v = false) : pyStrip v = v := by
  unfold pyStrip
  rw [hv]
  have h1 : ('h' :: rest).dropWhile isPySpace = 'h' :: rest := by
    apply dropWhile_eq_self_of_head
    intro d hd
    simp only [List.head?_cons, Option.some.injEq] at hd
    subst hd
    decide
  rw [h1]
  have h2 : ('h' :: rest).reverse.dropWhile isPySpace = ('h' :: rest).reverse := by
    apply dropWhile_eq_self_of_head
    intro d hd
    rw [List.head?_reverse] at hd
    unfold endsWithPySpace lastChar at hws
    rw [hv, hd] at hws
    exact hws
  rw [h2, List.reverse_reverse]
  cases v
  simp only at hv
  rw [hv]

lemma rstripSlash_eq_self {v : String} (h : endsWithChar '/' v = false) :
    rstripSlash v = v := by
  unfold rstripSlash
  have hdw : v.data.reverse.dropWhile (· == '/') = v.data.reverse := by
    apply dropWhile_eq_self_of_head
    intro d hd
    rw [List.head?_reverse] at hd
    unfold endsWithChar lastChar at h
    rw [hd] at h
    exact h
  rw [hdw, List.reverse_reverse]

lemma startsWith_http_head {v : String}
    (h : startsWithStr "http://" v = true ∨ startsWithStr "https://" v = true) :
    ∃ rest, v.data = 'h' :: rest := by
  rcases h with h | h <;>
  · unfold startsWithStr at h
    rw [List.isPrefixOf_iff_prefix] at h
    obtain ⟨t, ht⟩ := h
    exact ⟨_, ht.symm⟩

/-- A string that is an absolute `http(s)` URL with no `'#'`, no trailing
whitespace, and either no trailing slash or a path for which the
trailing-slash strip does not fire, is a fixed point of `normalize_url`
under any base. -/
lemma normalize_url_fixed (v base : String)
    (hstart : startsWithStr "http://" v = true ∨ startsWithStr "https://" v = true)
    (hhash : containsChar '#' v = false)
    (hws : endsWithPySpace v = false)
    (hslash : endsWithChar '/' v = false
      ∨ ¬((urlparse v).path ≠ "" ∧ (urlparse v).path ≠ "/"
          ∧ endsWithChar '/' (urlparse v).path = true)) :
    normalize_url v base = v := by
  obtain ⟨rest, hv⟩ := startsWith_http_head hstart
  have hne : v ≠ "" := by
    intro h
    rw [h] at hv
    simp at hv
  have hbf : pyStrip (beforeFirst '#' v) = v := by
    rw [beforeFirst_eq_self hhash]
    exact pyStrip_eq_self hv hws
  have hslash0 : startsWithStr "/" v = false := by
    unfold startsWithStr
    rw [hv, show ("/" : String).data = ['/'] from rfl]
    simp [List.isPrefixOf]
  have hhttp : (startsWithStr "http://" v || startsWithStr "https://" v) = true := by
    rcases hstart with h | h <;> simp [h]
  unfold normalize_url
  rw [if_neg hne, hbf]
  dsimp only
  rw [hslash0]
  simp only [Bool.false_eq_true, if_false, hhttp, Bool.not_true]
  by_cases hcond : (decide ((urlparse v).path ≠ "") && decide ((urlparse v).path ≠ "/")
      && endsWithChar '/' (urlparse v).path) = true
  · rw [if_pos hcond]
    rcases hslash with h | h
    · exact rstripSlash_eq_self h
    · exfalso
      apply h
      simp only [Bool.and_eq_true, decide_eq_true_eq] at hcond
      exact ⟨hcond.1.1, hcond.1.2, hcond.2⟩
  · rw [if_neg hcond]

/-! ## C7 — canonicalization idempotence (corrected) -/

/-- C7 counterexample: `normalize_url` is not idempotent as claimed.  On
`"https://x.io/a /"` (path ends in a space then a slash) the first pass
strips the trailing slash, leaving a trailing space; the second pass's
`strip()` then removes that space, producing a different string. -/
theorem normalize_url_not_idempotent :
    normalize_url "https://x.io/a /" "https://x.io" = "https://x.io/a "
    ∧ normalize_url (normalize_url "https://x.io/a /" "https://x.io") "https://x.io"
        = "https://x.io/a"
    ∧ normalize_url (normalize_url "https://x.io/a /" "https://x.io") "https://x.io"
        ≠ normalize_url "https://x.io/a /" "https://x.io" := by
  refine ⟨rfl, rfl, ?_⟩
  decide

/-- C7 amended: `normalize_url` is idempotent at every `(u, base)` whose
first output is an absolute `http(s)` URL containing no `'#'`, not ending
in whitespace, and either not ending in `'/'` or having a path on which
the trailing-slash strip does not fire.  (Outputs outside this set — which
arise only from URLs already containing whitespace, fragments-in-base or a
scheme-less base — are exactly where the counterexample lives.) -/
theorem normalize_url_idempotent_amended (u base : String)
    (hstart : startsWithStr "http://" (normalize_url u base) = true
      ∨ startsWithStr "https://" (normalize_url u base) = true)
    (hhash : containsChar '#' (normalize_url u base) = false)
    (hws : endsWithPySpace (normalize_url u base) = false)
    (hslash : endsWithChar '/' (normalize_url u base) = false
      ∨ ¬((urlparse (normalize_url u base)).path ≠ ""
          ∧ (urlparse (normalize_url u base)).path ≠ "/"
          ∧ endsWithChar '/' (urlparse (normalize_url u base)).path = true)) :
    normalize_url (normalize_url u base) base = normalize_url u base :=
  normalize_url_fixed (normalize_url u base) base hstart hhash hws hslash

/-- The amended C7 theorem applied at `/about/` against an `https` base. -/
theorem normalize_url_idempotent_amended_witness :
    normalize_url (normalize_url "https://acme.io/about/" "https://acme.io")
        "https://acme.io"
      = normalize_url "https://acme.io/about/" "https://acme.io" :=
  normalize_url_idempotent_amended "https://acme.io/about/" "https://acme.io"
    (Or.inr (by decide)) (by decide) (by decide) (Or.inl (by decide))

/-! ## Prioritizer lemmas (for C2, C3, C6) -/

lemma foldl_selectStep_len_bound (cp : List (String × List (String × String)))
    (b : Int) (l : List String) :
    ∀ acc : List (String × String × String), (acc.length : Int) ≤ b - 1 →
      (((l.foldl (selectStep cp b) acc).length : Int)) ≤ b - 1 := by
  induction l with
  | nil => intro acc hacc; exact hacc
  | cons pt rest ih =>
    intro acc hacc
    rw [List.foldl_cons]
    apply ih
    unfold selectStep
    split
    · by_cases hlt : (acc.length : Int) < b - 1
      · rw [if_pos hlt]
        simp only [List.length_append, List.length_cons, List.length_nil]
        push_cast
        omega
      · rw [if_neg hlt]
        exact hacc
    · exact hacc

lemma foldl_selectStep_nil (cp : List (String × List (String × String)))
    (b : Int) (hb : b ≤ 1) (l : List String) :
    l.foldl (selectStep cp b) [] = [] := by
  induction l with
  | nil => rfl
  | cons pt rest ih =>
    rw [List.foldl_cons]
    have hstep : selectStep cp b [] pt = [] := by
      unfold selectStep
      split
      · rw [if_neg (by simp only [List.length_nil, Nat.cast_zero]; omega)]
      · rfl
    rw [hstep, ih]

lemma select_key_pages_len (cp : List (String × List (String × String)))
    (b : Int) (hb : 1 ≤ b) :
    ((select_key_pages cp b).length : Int) ≤ b - 1 := by
  apply foldl_selectStep_len_bound
  simp only [List.length_nil, Nat.cast_zero]
  omega

lemma insSorted_len (x : String × String × String)
    (l : List (String × String × String)) :
    (insSorted x l).length = l.length + 1 := by
  induction l with
  | nil => rfl
  | cons y ys ih =>
    unfold insSorted
    by_cases h : priorityKeyLt x y
    · rw [if_pos h]
      simp
    · rw [if_neg h]
      simp only [List.length_cons, ih]

lemma pySort_len (l : List (String × String × String)) :
    (pySort l).length = l.length := by
  unfold pySort
  suffices h : ∀ acc, (l.foldl (fun acc x => insSorted x acc) acc).length
      = acc.length + l.length by
    simpa using h []
  induction l with
  | nil => intro acc; simp
  | cons y ys ih =>
    intro acc
    rw [List.foldl_cons, ih, insSorted_len]
    simp only [List.length_cons]
    omega

/-! ## C2 — prioritizer budget invariant -/

/-- C2: for every classified-pages table and every page budget, the
prioritizer selects at most `max_pages - 1` pages (one slot reserved for
the seed page), and selects none at all when `max_pages ≤ 1`. -/
theorem prioritize_pages_budget (cp : List (String × List (String × String)))
    (max_pages : Int) :
    (1 ≤ max_pages →
      ((prioritize_pages cp max_pages).length : Int) ≤ max_pages - 1)
    ∧ (max_pages ≤ 1 → prioritize_pages cp max_pages = []) := by
  constructor
  · intro hb
    unfold prioritize_pages
    have hlen1 := select_key_pages_len cp max_pages hb
    by_cases hrem : (0 : Int) < max_pages - ((select_key_pages cp max_pages).length : Int) - 1
    · rw [if_pos hrem]
      simp only [List.length_append]
      have htake : ((pySort (remainingClassified cp (select_key_pages cp max_pages))).take
          (max_pages - ((select_key_pages cp max_pages).length : Int) - 1).toNat).length
          ≤ (max_pages - ((select_key_pages cp max_pages).length : Int) - 1).toNat :=
        List.length_take_le _ _
      push_cast
      omega
    · rw [if_neg hrem]
      exact hlen1
  · intro hb
    unfold prioritize_pages
    have hsel : select_key_pages cp max_pages = [] :=
      foldl_selectStep_nil cp max_pages hb key_page_types
    rw [hsel]
    rw [if_neg]
    simp only [List.length_nil, Nat.cast_zero]
    omega

/-- The C2 invariant at budgets 5 and 1 on a concrete classified table. -/
theorem prioritize_pages_budget_witness :
    ((prioritize_pages [("about", [("https://acme.io/about", "a")]),
        ("careers", [("https://acme.io/careers", "c")])] 5).length : Int) ≤ 4
    ∧ prioritize_pages [("about", [("https://acme.io/about", "a")]),
        ("careers", [("https://acme.io/careers", "c")])] 1 = [] :=
  ⟨(prioritize_pages_budget _ 5).1 (by decide),
   (prioritize_pages_budget _ 1).2 (by decide)⟩

lemma assocFind_mem {α : Type} {k : String} {v : α} :
    ∀ {l : List (String × α)}, assocFind k l = some v → (k, v) ∈ l := by
  intro l
  induction l with
  | nil => intro h; simp [assocFind] at h
  | cons e rest ih =>
    intro h
    unfold assocFind at h
    by_cases hk : e.1 = k
    · rw [if_pos hk] at h
      injection h with h
      subst h
      subst hk
      exact List.mem_cons_self _ _
    · rw [if_neg hk] at h
      exact List.mem_cons_of_mem _ (ih h)

lemma mem_foldl_selectStep (cp : List (String × List (String × String))) (b : Int) :
    ∀ (l : List String) (acc : List (String × String × String))
      (e : String × String × String), e ∈ l.foldl (selectStep cp b) acc →
      e ∈ acc ∨ ∃ pt ∈ l, ∃ bucket, assocFind pt cp = some bucket
        ∧ bucket.head? = some (e.1, e.2.1) ∧ e.2.2 = pt := by
  intro l
  induction l with
  | nil =>
    intro acc e he
    exact Or.inl he
  | cons pt rest ih =>
    intro acc e he
    rw [List.foldl_cons] at he
    rcases ih _ e he with hacc | ⟨pt', hpt', bucket, hfind, hhead, hty⟩
    · unfold selectStep at hacc
      rcases hb : assocFind pt cp with _ | bucket
      · rw [hb] at hacc
        exact Or.inl hacc
      · rw [hb] at hacc
        rcases bucket with _ | ⟨x, xs⟩
        · exact Or.inl hacc
        · dsimp only at hacc
          by_cases hlt : (acc.length : Int) < b - 1
          · rw [if_pos hlt] at hacc
            rcases List.mem_append.mp hacc with h | h
            · exact Or.inl h
            · simp only [List.mem_singleton] at h
              subst h
              exact Or.inr ⟨pt, List.mem_cons_self _ _, x :: xs, hb, rfl, rfl⟩
          · rw [if_neg hlt] at hacc
            exact Or.inl hacc
    · exact Or.inr ⟨pt', List.mem_cons_of_mem _ hpt', bucket, hfind, hhead, hty⟩

/-! ## C3 — careers pages and the prioritizer (corrected) -/

/-- C3 counterexample: a page classified only as `careers` IS selected by
the prioritizer — the slot-filling pass iterates every classified bucket,
`careers` included.  With a budget of 5 and a single careers-only page,
the output contains that page. -/
theorem prioritize_pages_selects_careers_page :
    prioritize_pages [("careers", [("https://acme.io/careers", "careers link")])] 5
      = [("https://acme.io/careers", "careers link", "careers")] := by
  rfl

/-- C3 amended: a page classified only as `careers` is never selected by
the key-type pass (which iterates about, team, products, contact, news);
it can, however, still be selected by the slot-filling pass, which draws
on every classified bucket including `careers`. -/
theorem select_key_pages_never_careers_only
    (cp : List (String × List (String × String))) (b : Int) (u : String)
    (honly : ∀ t l, (t, l) ∈ cp → (∃ c, (u, c) ∈ l) → t = "careers") :
    ∀ c t, (u, c, t) ∉ select_key_pages cp b := by
  intro c t hmem
  unfold select_key_pages at hmem
  rcases mem_foldl_selectStep cp b key_page_types [] (u, c, t) hmem with h | h
  · simp at h
  · obtain ⟨pt, hpt, bucket, hfind, hhead, hty⟩ := h
    have hbucket : (pt, bucket) ∈ cp := assocFind_mem hfind
    have humem : ∃ c', (u, c') ∈ bucket := by
      rcases bucket with _ | ⟨x, xs⟩
      · simp at hhead
      · simp only [List.head?_cons, Option.some.injEq] at hhead
        exact ⟨c, hhead ▸ List.mem_cons_self _ _⟩
    have hcareers : pt = "careers" := honly pt bucket hbucket humem
    subst hcareers
    revert hpt
    decide

/-- The amended C3 theorem at the counterexample's input: the careers-only
page is absent from the key-type pass (it enters only via slot filling). -/
theorem select_key_pages_never_careers_only_witness :
    ("https://acme.io/careers", "careers link", "careers")
      ∉ select_key_pages [("careers", [("https://acme.io/careers", "careers link")])] 5 :=
  select_key_pages_never_careers_only
    [("careers", [("https://acme.io/careers", "careers link")])] 5
    "https://acme.io/careers"
    (by
      intro t l hmem hexists
      rcases List.mem_cons.mp hmem with h | h
      · exact congrArg Prod.fst h
      · simp at h)
    "careers link" "careers"

/-! ## C8 — marketing-title rejection -/

/-- C8: when the page title is "Best AI Platform For Your Business" (which
matches ≥ 2 marketing keywords and is therefore rejected) and the
`og:site_name` source yields no surviving candidate, the company name is
derived from the domain; concretely, for `https://www.acme-corp.io` the
domain derivation strips `www.`, takes the first label, replaces
separators with spaces and title-cases each word, giving "Acme Corp". -/
theorem extract_company_name_marketing_rejected :
    (∀ (og : Option String) (url : String),
      (og = none ∨ og = some ""
        ∨ (∀ c, og = some c → looks_like_marketing (pyStrip c) = true)) →
      extract_company_name (some "Best AI Platform For Your Business") og url
        = extract_from_domain url)
    ∧ extract_from_domain "https://www.acme-corp.io" = "Acme Corp" := by
  constructor
  · intro og url hog
    have htitle : titleCandidates (pyStrip "Best AI Platform For Your Business") = [] := by
      decide
    unfold extract_company_name
    dsimp only
    rw [htitle]
    cases og with
    | none => rfl
    | some c =>
      by_cases hc : c = ""
      · subst hc
        rfl
      · have hmk : looks_like_marketing (pyStrip c) = true := by
          rcases hog with h | h | h
          · exact absurd h (by simp)
          · rw [Option.some.injEq] at h
            exact absurd h hc
          · exact h c rfl
        dsimp only
        rw [if_pos hc, if_neg (by rw [hmk]; decide)]
  · decide

/-- The C8 theorem applied at an absent `og:site_name`. -/
theorem extract_company_name_marketing_rejected_witness :
    extract_company_name (some "Best AI Platform For Your Business") none
        "https://www.acme-corp.io" = extract_from_domain "https://www.acme-corp.io" :=
  extract_company_name_marketing_rejected.1 none "https://www.acme-corp.io" (Or.inl rfl)

/-! ## C9 — boilerplate anchor text discarded, URL recoverable -/

/-- C9: an anchor whose text is empty, shorter than 2 characters, or
generic boilerplate contributes no `(url, context)` entry in the
anchor-scanning pass — whatever the state, `method1Step` leaves the
collected list unchanged — yet the same page's URL can still enter the
output through another discovery path of the same invocation: on a page
whose only anchor is `/about/` with text `»`, heuristic path-guessing
emits `https://acme.io/about/` from the page text. -/
theorem anchor_text_discarded_url_recoverable :
    (∀ (base : String) (st : List (String × String) × List String) (a : AnchorTag),
        isBadAnchorText a.text = true → (method1Step base st a).1 = st.1)
    ∧ extract_links_with_context
        ⟨[⟨"/about/", "»", []⟩], [], "About us and more", []⟩ "https://acme.io"
        = [("https://acme.io/about/", "about (discovered from content)")] := by
  constructor
  · intro base st a hbad
    obtain ⟨links, seen⟩ := st
    unfold method1Step
    dsimp only
    split
    · rfl
    · split
      · rfl
      · split
        · rfl
        · split
          · rfl
          · dsimp only
  · rfl

/-- The C9 discard property applied to the `»` anchor of the example. -/
theorem anchor_text_discarded_url_recoverable_witness :
    (method1Step "https://acme.io" ([], []) ⟨"/about/", "»", []⟩).1
      = (([], []) : List (String × String) × List String).1 :=
  anchor_text_discarded_url_recoverable.1 "https://acme.io" ([], [])
    ⟨"/about/", "»", []⟩ (by decide)

/-! ## C1 — seed-fetch failure semantics (corrected) -/

/-- C1 counterexample: when the seed fetch fails, `scrape_website` does
NOT surface an error — it returns a degraded `ScrapedData` whose
description carries the error message, contradicting the claim that only
seed-fetch failure produces a top-level error. -/
theorem scrape_website_seed_failure_returns_ok :
    scrape_website "https://acme.io" 5 (Except.error "timeout")
        (fun _ => none) (fun _ => none) (fun _ => none)
      = Except.ok { company_name := "acme.io",
                    description := "Error fetching website: timeout",
                    raw_text := "" }
    ∧ ∀ msg, scrape_website "https://acme.io" 5 (Except.error "timeout")
        (fun _ => none) (fun _ => none) (fun _ => none) ≠ Except.error msg := by
  constructor
  · rfl
  · intro msg h
    exact Except.noConfusion h

/-- C1 amended: a failed seed fetch does not surface an error — the call
returns the degraded result (netloc as company name, the error message as
description, empty text); and a non-seed page's fetch failure never aborts
the crawl — the fetch loop skips that page, leaving the accumulated state
unchanged, exactly as the per-page `except` that swallows the
`RequestException` does (lines 1306-1307 and 1410-1412 of the source).
Nothing is claimed about exceptions other than fetch failures: the
outermost handler of the source (lines 1451-1454) re-raises exceptions
escaping steps 2-7, a path the pure embedding — whose URL parser is total
where CPython's can raise on bracket-malformed hosts — does not model. -/
theorem scrape_website_seed_failure_degraded :
    (∀ (url : String) (max_pages : Int) (e : String)
        (headResp getResp : String → Option Nat)
        (pageFetch : String → Option PageData),
        scrape_website url max_pages (Except.error e) headResp getResp pageFetch
          = Except.ok (degradedSeedResult url e))
    ∧ (∀ (url : String) (pageFetch : String → Option PageData) (st : LoopState)
        (pu c t : String), pageFetch pu = none →
        fetchStep url pageFetch st (pu, c, t) = st) := by
  constructor
  · intro url max_pages e headResp getResp pageFetch
    rfl
  · intro url pageFetch st pu c t h
    unfold fetchStep
    dsimp only
    split
    · rfl
    · split
      · rfl
      · rw [h]

/-- The amended C1 theorem at a concrete failing seed and a concrete
failing page fetch. -/
theorem scrape_website_seed_failure_degraded_witness :
    scrape_website "https://acme.io" 5 (Except.error "timeout")
        (fun _ => none) (fun _ => none) (fun _ => none)
      = Except.ok (degradedSeedResult "https://acme.io" "timeout")
    ∧ fetchStep "https://acme.io" (fun _ => none)
        ⟨{}, "--- MAIN PAGE ---\nAcme.", [], []⟩ ("https://acme.io/team", "team", "team")
      = ⟨{}, "--- MAIN PAGE ---\nAcme.", [], []⟩ :=
  ⟨scrape_website_seed_failure_degraded.1 "https://acme.io" 5 "timeout"
      (fun _ => none) (fun _ => none) (fun _ => none),
   scrape_website_seed_failure_degraded.2 "https://acme.io" (fun _ => none)
      ⟨{}, "--- MAIN PAGE ---\nAcme.", [], []⟩ "https://acme.io/team" "team" "team" rfl⟩

/-! ## Verification/classification lemmas (for C6) -/

lemma mem_mainVerify {url : String} {headResp getResp : String → Option Nat} :
    ∀ {seen : List String} {links : List (String × String)} {p : String × String},
      p ∈ mainVerify url headResp getResp seen links →
      linkVerifies headResp getResp p.1 = true := by
  intro seen links
  induction links generalizing seen with
  | nil =>
    intro p hp
    simp [mainVerify] at hp
  | cons x rest ih =>
    intro p hp
    obtain ⟨u, c⟩ := x
    unfold mainVerify at hp
    by_cases hdom : is_same_domain u url && u ≠ url
    · rw [if_pos hdom] at hp
      by_cases hseen : u ∈ seen
      · rw [if_pos hseen] at hp
        exact ih hp
      · rw [if_neg hseen] at hp
        by_cases hver : linkVerifies headResp getResp u
        · rw [if_pos hver] at hp
          rcases List.mem_cons.mp hp with rfl | hp'
          · exact hver
          · exact ih hp'
        · rw [if_neg hver] at hp
          exact ih hp
    · rw [if_neg hdom] at hp
      exact ih hp

lemma mem_assocSet {α : Type} {k : String} {v : α} {e : String × α} :
    ∀ {l : List (String × α)}, e ∈ assocSet k v l → e ∈ l ∨ e = (k, v) := by
  intro l
  induction l with
  | nil =>
    intro h
    simp only [assocSet, List.mem_singleton] at h
    exact Or.inr h
  | cons x rest ih =>
    intro h
    unfold assocSet at h
    by_cases hk : x.1 = k
    · rw [if_pos hk] at h
      rcases List.mem_cons.mp h with rfl | h'
      · exact Or.inr rfl
      · exact Or.inl (List.mem_cons_of_mem _ h')
    · rw [if_neg hk] at h
      rcases List.mem_cons.mp h with rfl | h'
      · exact Or.inl (List.mem_cons_self _ _)
      · rcases ih h' with h'' | h''
        · exact Or.inl (List.mem_cons_of_mem _ h'')
        · exact Or.inr h''

/-- `appendClassified` only ever adds the entry `e` to buckets: everything
in a bucket of the result was in a bucket of the input or is `e`. -/
lemma mem_appendClassified {cp : List (String × List (String × String))}
    {cls : String} {e x : String × String} {t : String} {l : List (String × String)}
    (hmem : (t, l) ∈ appendClassified cp cls e) (hx : x ∈ l) :
    (∃ t' l', (t', l') ∈ cp ∧ x ∈ l') ∨ x = e := by
  unfold appendClassified at hmem
  rcases hfind : assocFind cls cp with _ | bucket
  · rw [hfind] at hmem
    rcases List.mem_append.mp hmem with h | h
    · exact Or.inl ⟨t, l, h, hx⟩
    · simp only [List.mem_singleton] at h
      injection h with h1 h2
      subst h2
      simp only [List.mem_singleton] at hx
      exact Or.inr hx
  · rw [hfind] at hmem
    dsimp only at hmem
    by_cases hequiv : bucket.any (fun ex => urls_are_equivalent e.1 ex.1)
    · rw [if_pos hequiv] at hmem
      exact Or.inl ⟨t, l, hmem, hx⟩
    · rw [if_neg hequiv] at hmem
      rcases mem_assocSet hmem with h | h
      · exact Or.inl ⟨t, l, h, hx⟩
      · injection h with h1 h2
        subst h2
        rcases List.mem_append.mp hx with h' | h'
        · exact Or.inl ⟨cls, bucket, assocFind_mem hfind, h'⟩
        · simp only [List.mem_singleton] at h'
          exact Or.inr h'

/-- Folding `appendClassified` over a classification list only adds `e`. -/
lemma mem_foldl_appendClassified {e x : String × String} :
    ∀ (cls : List String) (cp : List (String × List (String × String)))
      {t : String} {l : List (String × String)},
      (t, l) ∈ cls.foldl (fun cp t => appendClassified cp t e) cp → x ∈ l →
      (∃ t' l', (t', l') ∈ cp ∧ x ∈ l') ∨ x = e := by
  intro cls
  induction cls with
  | nil =>
    intro cp t l hmem hx
    exact Or.inl ⟨t, l, hmem, hx⟩
  | cons c rest ih =>
    intro cp t l hmem hx
    rw [List.foldl_cons] at hmem
    rcases ih _ hmem hx with ⟨t', l', ht', hx'⟩ | h
    · exact mem_appendClassified ht' hx'
    · exact Or.inr h

/-- Every URL classified by `classifyVerified` comes from the verified
list. -/
lemma mem_classifyVerified {verified : List (String × String)}
    {t : String} {l : List (String × String)} {x : String × String}
    (hmem : (t, l) ∈ classifyVerified verified) (hx : x ∈ l) :
    x ∈ verified := by
  unfold classifyVerified at hmem
  suffices h : ∀ (vs : List (String × String))
      (cp : List (String × List (String × String))),
      (∀ t' l' y, (t', l') ∈ cp → y ∈ l' → y ∈ verified) →
      (∀ v ∈ vs, v ∈ verified) →
      ∀ t' l', (t', l') ∈ vs.foldl
        (fun cp e => (classify_page e.1 e.2 "").foldl
          (fun cp t => appendClassified cp t e) cp) cp →
      ∀ y ∈ l', y ∈ verified by
    exact h verified [] (by simp) (fun v hv => hv) t l hmem x hx
  intro vs
  induction vs with
  | nil =>
    intro cp hcp hvs t' l' hmem' y hy
    exact hcp t' l' y hmem' hy
  | cons v rest ih =>
    intro cp hcp hvs t' l' hmem' y hy
    rw [List.foldl_cons] at hmem'
    refine ih _ ?_ (fun w hw => hvs w (List.mem_cons_of_mem _ hw)) t' l' hmem' y hy
    intro t'' l'' z hmem'' hz
    rcases mem_foldl_appendClassified _ _ hmem'' hz with ⟨t3, l3, h3, hz3⟩ | h
    · exact hcp t3 l3 z h3 hz3
    · exact h ▸ hvs v (List.mem_cons_self _ _)

lemma head_ok_linkVerifies {headResp getResp : String → Option Nat} {u : String}
    {s : Nat} (h : headResp u = some s) (hs : s < 400) :
    linkVerifies headResp getResp u = true := by
  unfold linkVerifies
  rw [h]
  simpa using hs

/-- The supplementary discovery pass only adds `HEAD`-verified URLs, to
both the discovered set and the classified buckets. -/
lemma additionalLoop_spec {base : String} {headResp : String → Option Nat} :
    ∀ (paths : List String) (disc : List (String × String))
      (cp : List (String × List (String × String))) (n : Nat),
      (∀ p ∈ (additionalLoop base headResp paths disc cp n).1,
        p ∈ disc ∨ ∃ s, headResp p.1 = some s ∧ s < 400)
      ∧ (∀ t l x, (t, l) ∈ (additionalLoop base headResp paths disc cp n).2 → x ∈ l →
          (∃ t' l', (t', l') ∈ cp ∧ x ∈ l') ∨ ∃ s, headResp x.1 = some s ∧ s < 400) := by
  intro paths
  induction paths with
  | nil =>
    intro disc cp n
    exact ⟨fun p hp => Or.inl hp, fun t l x hmem hx => Or.inl ⟨t, l, hmem, hx⟩⟩
  | cons path rest ih =>
    intro disc cp n
    unfold additionalLoop
    by_cases hequiv : disc.any (fun ex => urls_are_equivalent (base ++ "/" ++ path) ex.1)
    · rw [if_pos hequiv]
      exact ih disc cp n
    · rw [if_neg hequiv]
      rcases hhead : headResp (base ++ "/" ++ path) with _ | s
      · dsimp only
        exact ih disc cp n
      · dsimp only
        by_cases hs : s < 400
        · rw [if_pos hs]
          by_cases hfive : 5 ≤ n + 1
          · rw [if_pos hfive]
            constructor
            · intro p hp
              rcases List.mem_append.mp hp with h | h
              · exact Or.inl h
              · simp only [List.mem_singleton] at h
                subst h
                exact Or.inr ⟨s, hhead, hs⟩
            · intro t l x hmem hx
              rcases mem_foldl_appendClassified _ _ hmem hx with h | h
              · exact Or.inl h
              · subst h
                exact Or.inr ⟨s, hhead, hs⟩
          · rw [if_neg hfive]
            obtain ⟨ih1, ih2⟩ := ih (disc ++ [(base ++ "/" ++ path, path ++ " (direct discovery)")])
              ((classify_page (base ++ "/" ++ path) path "").foldl
                (fun cp t => appendClassified cp t
                  (base ++ "/" ++ path, path ++ " (direct discovery)")) cp) (n + 1)
            constructor
            · intro p hp
              rcases ih1 p hp with h | h
              · rcases List.mem_append.mp h with h' | h'
                · exact Or.inl h'
                · simp only [List.mem_singleton] at h'
                  subst h'
                  exact Or.inr ⟨s, hhead, hs⟩
              · exact Or.inr h
            · intro t l x hmem hx
              rcases ih2 t l x hmem hx with ⟨t', l', ht', hx'⟩ | h
              · rcases mem_foldl_appendClassified _ _ ht' hx' with h' | h'
                · exact Or.inl h'
                · subst h'
                  exact Or.inr ⟨s, hhead, hs⟩
              · exact Or.inr h
        · rw [if_neg hs]
          exact ih disc cp n

lemma mem_insSorted {x y : String × String × String}
    {l : List (String × String × String)} (h : x ∈ insSorted y l) :
    x = y ∨ x ∈ l := by
  induction l with
  | nil =>
    simp only [insSorted, List.mem_singleton] at h
    exact Or.inl h
  | cons z zs ih =>
    unfold insSorted at h
    by_cases hlt : priorityKeyLt y z
    · rw [if_pos hlt] at h
      rcases List.mem_cons.mp h with rfl | h'
      · exact Or.inl rfl
      · exact Or.inr h'
    · rw [if_neg hlt] at h
      rcases List.mem_cons.mp h with rfl | h'
      · exact Or.inr (List.mem_cons_self _ _)
      · rcases ih h' with h'' | h''
        · exact Or.inl h''
        · exact Or.inr (List.mem_cons_of_mem _ h'')

lemma mem_pySort {x : String × String × String} {l : List (String × String × String)}
    (h : x ∈ pySort l) : x ∈ l := by
  unfold pySort at h
  suffices hgen : ∀ (l' : List (String × String × String)) acc,
      x ∈ l'.foldl (fun acc y => insSorted y acc) acc → x ∈ acc ∨ x ∈ l' by
    rcases hgen l [] h with h' | h'
    · simp at h'
    · exact h'
  intro l'
  induction l' with
  | nil =>
    intro acc h'
    exact Or.inl h'
  | cons y ys ih =>
    intro acc h'
    rw [List.foldl_cons] at h'
    rcases ih _ h' with h'' | h''
    · rcases mem_insSorted h'' with h3 | h3
      · exact Or.inr (h3 ▸ List.mem_cons_self _ _)
      · exact Or.inl h3
    · exact Or.inr (List.mem_cons_of_mem _ h'')

/-- Every prioritized page comes from a classified bucket. -/
lemma mem_prioritize_pages {cp : List (String × List (String × String))}
    {max_pages : Int} {e : String × String × String}
    (h : e ∈ prioritize_pages cp max_pages) :
    ∃ t l, (t, l) ∈ cp ∧ (e.1, e.2.1) ∈ l := by
  have hsel : ∀ e' : String × String × String, e' ∈ select_key_pages cp max_pages →
      ∃ t l, (t, l) ∈ cp ∧ (e'.1, e'.2.1) ∈ l := by
    intro e' he'
    rcases mem_foldl_selectStep cp max_pages key_page_types [] e' he' with h' | h'
    · simp at h'
    · obtain ⟨pt, _, bucket, hfind, hhead, _⟩ := h'
      refine ⟨pt, bucket, assocFind_mem hfind, ?_⟩
      rcases bucket with _ | ⟨b0, bs⟩
      · simp at hhead
      · simp only [List.head?_cons, Option.some.injEq] at hhead
        exact hhead ▸ List.mem_cons_self _ _
  unfold prioritize_pages at h
  by_cases hrem : (0 : Int) < max_pages - ((select_key_pages cp max_pages).length : Int) - 1
  · rw [if_pos hrem] at h
    rcases List.mem_append.mp h with h' | h'
    · exact hsel e h'
    · have hmem := mem_pySort (List.mem_of_mem_take h')
      unfold remainingClassified at hmem
      rw [List.mem_flatMap] at hmem
      obtain ⟨b, hb, hmem'⟩ := hmem
      rw [List.mem_filterMap] at hmem'
      obtain ⟨q, hq, hfq⟩ := hmem'
      by_cases hany : (select_key_pages cp max_pages).any (fun p => p.1 == q.1)
      · rw [if_pos hany] at hfq
        simp at hfq
      · rw [if_neg hany] at hfq
        injection hfq with hfq
        subst hfq
        exact ⟨b.1, b.2, hb, hq⟩
  · rw [if_neg hrem] at h
    exact hsel e h

/-- Everything discovered or classified by `discoverClassify` passed an
existence check. -/
lemma discoverClassify_verified {links : List (String × String)}
    {url base : String} {headResp getResp : String → Option Nat} :
    (∀ p ∈ (discoverClassify links url base headResp getResp).1,
      linkVerifies headResp getResp p.1 = true)
    ∧ (∀ t l x, (t, l) ∈ (discoverClassify links url base headResp getResp).2 →
        x ∈ l → linkVerifies headResp getResp x.1 = true) := by
  unfold discoverClassify
  dsimp only
  by_cases hlen : (mainVerify url headResp getResp [] links).length < 3
  · rw [if_pos hlen]
    obtain ⟨h1, h2⟩ := @additionalLoop_spec base headResp
      common_paths (mainVerify url headResp getResp [] links)
      (classifyVerified (mainVerify url headResp getResp [] links)) 0
    constructor
    · intro p hp
      rcases h1 p hp with h | ⟨s, hh, hs⟩
      · exact mem_mainVerify h
      · exact head_ok_linkVerifies hh hs
    · intro t l x hmem hx
      rcases h2 t l x hmem hx with ⟨t', l', ht', hx'⟩ | ⟨s, hh, hs⟩
      · exact mem_mainVerify (mem_classifyVerified ht' hx')
      · exact head_ok_linkVerifies hh hs
  · rw [if_neg hlen]
    constructor
    · intro p hp
      exact mem_mainVerify hp
    · intro t l x hmem hx
      exact mem_mainVerify (mem_classifyVerified hmem hx)

/-! ## C6 — dead links never counted or prioritized -/

/-- C6: a discovered link whose `HEAD` existence check returns a status
`≥ 400` never enters the discovered set (so it never counts toward
`totalPagesFound`) and never appears among the prioritized pages; and
`totalPagesFound` is exactly the size of the verified, deduplicated
discovery set — an expression independent of the content-fetch oracle, so
independent of how many pages were actually fetched. -/
theorem dead_links_never_counted_or_prioritized
    (links : List (String × String)) (url base : String)
    (headResp getResp : String → Option Nat) (max_pages : Int)
    (dead : String) (s : Nat)
    (hdead : headResp dead = some s) (hs : 400 ≤ s) :
    (∀ c, (dead, c) ∉ (discoverClassify links url base headResp getResp).1)
    ∧ (∀ e ∈ prioritize_pages (discoverClassify links url base headResp getResp).2
        max_pages, e.1 ≠ dead)
    ∧ (∀ (sp : SeedPage) (pageFetch : String → Option PageData),
        ∃ d, scrape_website url max_pages (Except.ok sp) headResp getResp pageFetch
          = Except.ok d
        ∧ d.total_pages_found = some (discoverClassify
            (deduplicate_urls (extract_links_with_context sp.page
              ((urlparse url).scheme ++ "://" ++ (urlparse url).netloc)))
            url ((urlparse url).scheme ++ "://" ++ (urlparse url).netloc)
            headResp getResp).1.length) := by
  have hnv : linkVerifies headResp getResp dead = false := by
    unfold linkVerifies
    rw [hdead]
    simp only [decide_eq_false_iff_not, not_lt]
    exact hs
  refine ⟨?_, ?_, ?_⟩
  · intro c hmem
    have := discoverClassify_verified.1 (dead, c) hmem
    rw [hnv] at this
    exact Bool.false_ne_true this
  · intro e he heq
    obtain ⟨t, l, hmem, hx⟩ := mem_prioritize_pages he
    have := discoverClassify_verified.2 t l (e.1, e.2.1) hmem hx
    rw [heq] at this
    rw [hnv] at this
    exact Bool.false_ne_true this
  · intro sp pageFetch
    exact ⟨_, rfl, rfl⟩

/-- The C6 theorem applied to a concrete crawl where `/old-page` answers
410 to its existence check. -/
theorem dead_links_never_counted_or_prioritized_witness :
    ("https://acme.io/old-page", "old")
      ∉ (discoverClassify
          [("https://acme.io/old-page", "old"), ("https://acme.io/about", "about")]
          "https://acme.io" "https://acme.io"
          (fun u => if u = "https://acme.io/old-page" then some 410
            else if u = "https://acme.io/about" then some 200 else some 404)
          (fun _ => none)).1 :=
  (dead_links_never_counted_or_prioritized
    [("https://acme.io/old-page", "old"), ("https://acme.io/about", "about")]
    "https://acme.io" "https://acme.io"
    (fun u => if u = "https://acme.io/old-page" then some 410
      else if u = "https://acme.io/about" then some 200 else some 404)
    (fun _ => none) 5 "https://acme.io/old-page" 410 (by decide) (by decide)).1 "old"
